import Mathlib

/-!
# Squares_openCV: grid construction, per-cell aggregation and display

A shallow embedding of `SquareGenerator.hpp` (the `Square`, `SquareGenerator`,
`SquareFeatures` and `SquareFrameDiff` classes), of the fixed-cell-size `divideScreen` of the
earlier copy of that header, and of the event handlers of `OpticalFlowExampleApp.cpp`.

Modelling conventions

* C++ `int` values are mathematical integers (`Int`).  The one place where the
  source accumulates values without any bound that the program itself enforces is
  the pixel accumulator of `countPixels`; there every `+=` is followed by a
  wrap to the signed 32-bit range (`wrap32`).  Window coordinates and the feature
  counter (at most one increment per point of a `vector` that the application caps
  at `MAX_CORNERS`) stay far away from the 32-bit limits.
* `cv::Point2f` coordinates and the opacity handed to `gl::color` are exact
  rationals.
* `cv::Mat::at` is a checked read: an index outside the image is the fault
  `outOfBounds`.  Integer division by zero is the fault `divByZero`.
* Loops whose termination depends on the input take a fuel argument and
  report `fuelExhausted` when it runs out.
-/

/-! ## Constants of `SquareGenerator.hpp` and `OpticalFlowExampleApp.cpp` -/

def SCREEN_WIDTH : Int := 640
def SCREEN_HEIGHT : Int := 480
def SQUARE_WIDTH : Int := 64
def SQUARE_HEIGHT : Int := 48
def MAX_CORNERS : Int := 300
def NUMBER_OF_SQUARES : Int := 10

/-! ## Faults -/

/-- Ways in which a run of the embedded code can fail to produce a value. -/
inductive Fault where
  | divByZero
  | outOfBounds
  | fuelExhausted
deriving DecidableEq, Repr

/-- Wrap an integer to the signed 32-bit range. -/
def wrap32 (v : Int) : Int := (v + 2147483648) % 4294967296 - 2147483648

/-! ## `Square` -/

/-- The class `Square`: every member is value-initialised to zero. -/
structure Square where
  xPos : Int := 0
  yPos : Int := 0
  squareWidth : Int := 0
  squareHeight : Int := 0
  numFeatures : Int := 0
deriving DecidableEq, Repr

namespace Square

/-- The constructor `Square::Square(int x, int y, int width, int height)`; `numFeatures`
keeps its default member initialiser. -/
def new (x y width height : Int) : Square :=
  { xPos := x, yPos := y, squareWidth := width, squareHeight := height }

def setFeatureCount (s : Square) (num : Int) : Square := { s with numFeatures := num }
def getXPos (s : Square) : Int := s.xPos
def getYPos (s : Square) : Int := s.yPos
def getWidth (s : Square) : Int := s.squareWidth
def getHeight (s : Square) : Int := s.squareHeight
def getFeatureCount (s : Square) : Int := s.numFeatures

end Square

/-! ## `SquareGenerator::divideScreen` -/

namespace SquareGenerator

/-- The inner loop of `divideScreen`:
`for (int j = 0; j < getWindowHeight(); j += squareHeight) squares.push_back(Square(i, j, ...))`,
started at `j`. -/
def divideScreen.loopJ (windowHeight i squareWidth squareHeight : Int) :
    Nat → Int → List Square → Except Fault (List Square)
  | 0, _, _ => .error .fuelExhausted
  | fuel + 1, j, squares =>
    if j < windowHeight then
      divideScreen.loopJ windowHeight i squareWidth squareHeight fuel (j + squareHeight)
        (squares ++ [Square.new i j squareWidth squareHeight])
    else .ok squares

/-- The outer loop of `divideScreen`:
`for (int i = 0; i < getWindowWidth(); i += squareWidth) { inner loop }`, started at `i`.
Every run of the inner loop gets the budget `fuelJ`. -/
def divideScreen.loopI (windowWidth windowHeight squareWidth squareHeight : Int)
    (fuelJ : Nat) : Nat → Int → List Square → Except Fault (List Square)
  | 0, _, _ => .error .fuelExhausted
  | fuel + 1, i, squares =>
    if i < windowWidth then
      match divideScreen.loopJ windowHeight i squareWidth squareHeight fuelJ 0 squares with
      | .error e => .error e
      | .ok squares1 =>
        divideScreen.loopI windowWidth windowHeight squareWidth squareHeight fuelJ fuel
          (i + squareWidth) squares1
    else .ok squares

/-- The method `SquareGenerator::divideScreen(int numSquares)` run on a window of
`windowWidth x windowHeight` pixels with the member vector `squares`; it returns the
vector after the call.  `fuel` bounds the number of tests of each loop condition. -/
def divideScreen (fuel : Nat) (windowWidth windowHeight numSquares : Int)
    (squares : List Square) : Except Fault (List Square) :=
  if numSquares = 0 then .error .divByZero
  else
    let squareWidth := Int.tdiv windowWidth numSquares
    let squareHeight := Int.tdiv windowHeight numSquares
    divideScreen.loopI windowWidth windowHeight squareWidth squareHeight fuel fuel 0 squares

/-- The call `divideScreen(numSquares)` returns, leaving `squares` in the member vector. -/
def DivideScreenReturns (windowWidth windowHeight numSquares : Int)
    (before squares : List Square) : Prop :=
  ∃ fuel, divideScreen fuel windowWidth windowHeight numSquares before = .ok squares

end SquareGenerator

/-! ## `SquareFeatures::countFeatures` -/

/-- A `cv::Point2f`, with exact coordinates. -/
structure Point2f where
  x : ℚ
  y : ℚ
deriving DecidableEq

namespace SquareFeatures

/-- The test of the `if` in `countFeatures`: the point lies in the window of
`SQUARE_WIDTH x SQUARE_HEIGHT` pixels whose top-left corner is the corner of the square. -/
def countFeatures.hit (sq : Square) (p : Point2f) : Bool :=
  (decide (p.x ≥ ((sq.getXPos : Int) : ℚ)) && decide (p.x < ((sq.getXPos + SQUARE_WIDTH : Int) : ℚ))) &&
  (decide (p.y ≥ ((sq.getYPos : Int) : ℚ)) && decide (p.y < ((sq.getYPos + SQUARE_HEIGHT : Int) : ℚ)))

/-- The loop `for (int j = 0; j < points.size(); j++) if (...) count++;` over the points
that are still to be visited. -/
def countFeatures.loopJ (sq : Square) : List Point2f → Int → Int
  | [], count => count
  | p :: rest, count =>
    if countFeatures.hit sq p then countFeatures.loopJ sq rest (count + 1)
    else countFeatures.loopJ sq rest count

/-- The body of the loop over the squares in `countFeatures`. -/
def countFeatures.body (points : List Point2f) (sq : Square) : Square :=
  (sq.setFeatureCount 0).setFeatureCount (countFeatures.loopJ (sq.setFeatureCount 0) points 0)

/-- The method `SquareFeatures::countFeatures(vector<cv::Point2f> points)`: the member
vector `squares` after the call. -/
def countFeatures (points : List Point2f) (squares : List Square) : List Square :=
  squares.map (countFeatures.body points)

end SquareFeatures

/-! ## `SquareFrameDiff::countPixels` -/

/-- A single-channel 8-bit `cv::Mat`: `rows x cols` pixels, the pixel of row `b` and
column `a` being `data b a`. -/
structure Mat where
  rows : Int
  cols : Int
  data : Nat → Nat → Fin 256

/-- The read `outputImg.at<u_int8_t>(b, a)` of row `b`, column `a`. -/
def Mat.at? (img : Mat) (b a : Int) : Except Fault Int :=
  if 0 ≤ b ∧ b < img.rows ∧ 0 ≤ a ∧ a < img.cols then
    .ok ((img.data b.toNat a.toNat).val : Int)
  else .error .outOfBounds

namespace SquareFrameDiff

/-- The loop `for (int b = ...; b < yPos + height; b++) pixelAddition += at(b, a)` with
`n` iterations left, the next one at row `b`. -/
def countPixels.loopB (img : Mat) (a : Int) : Nat → Int → Int → Except Fault Int
  | 0, _, pixelAddition => .ok pixelAddition
  | n + 1, b, pixelAddition =>
    match img.at? b a with
    | .error e => .error e
    | .ok v => countPixels.loopB img a n (b + 1) (wrap32 (pixelAddition + v))

/-- The loop `for (int a = ...; a < xPos + width; a++) { loop over b }` with `n`
iterations left, the next one at column `a`. -/
def countPixels.loopA (img : Mat) (sq : Square) : Nat → Int → Int → Except Fault Int
  | 0, _, pixelAddition => .ok pixelAddition
  | n + 1, a, pixelAddition =>
    match countPixels.loopB img a (sq.getYPos + sq.getHeight - sq.getYPos).toNat sq.getYPos
        pixelAddition with
    | .error e => .error e
    | .ok pixelAddition1 => countPixels.loopA img sq n (a + 1) pixelAddition1

/-- The body of the loop over the squares in `countPixels`. -/
def countPixels.body (img : Mat) (sq : Square) : Except Fault Square :=
  let sq0 := sq.setFeatureCount 0
  match countPixels.loopA img sq0 (sq0.getXPos + sq0.getWidth - sq0.getXPos).toNat sq0.getXPos 0 with
  | .error e => .error e
  | .ok pixelAddition => .ok (sq0.setFeatureCount pixelAddition)

/-- The method `SquareFrameDiff::countPixels(cv::Mat outputImg)`: the member vector
`squares` after the call, or the fault of the first failing read. -/
def countPixels (img : Mat) : List Square → Except Fault (List Square)
  | [] => .ok []
  | sq :: rest =>
    match countPixels.body img sq with
    | .error e => .error e
    | .ok sq1 =>
      match countPixels img rest with
      | .error e => .error e
      | .ok rest1 => .ok (sq1 :: rest1)

end SquareFrameDiff

/-! ## `SquareGenerator::displaySquares` -/

/-- The calls that `displaySquares` makes into the renderer.  The alpha of `color` is
`none` when the quotient is not a finite number (division by `norm = 0`). -/
inductive GlCall where
  | color (r g b : ℚ) (alpha : Option ℚ)
  | drawSolidRect (x1 y1 x2 y2 : Int)
deriving DecidableEq

namespace SquareGenerator

/-- The normalising variable `norm` of `displaySquares`. -/
def displaySquares.norm (key : Char) : Int :=
  if key = 'f' then 10 else if key = 'd' then 1005555 else 0

/-- The expression `(float)squares[i].getFeatureCount() / norm`. -/
def displaySquares.alpha (featureCount norm : Int) : Option ℚ :=
  if norm = 0 then none else some ((featureCount : ℚ) / (norm : ℚ))

/-- The body of the loop of `displaySquares` for one square. -/
def displaySquares.body (norm : Int) (sq : Square) : List GlCall :=
  GlCall.color 0 1 0 (displaySquares.alpha sq.getFeatureCount norm) ::
    (if sq.getFeatureCount > 0 then
      [GlCall.drawSolidRect sq.getXPos sq.getYPos (sq.getXPos + SQUARE_WIDTH)
        (sq.getYPos + SQUARE_HEIGHT)]
    else [])

/-- The method `SquareGenerator::displaySquares(char key)`: the renderer calls it makes,
in order. -/
def displaySquares (key : Char) : List Square → List GlCall
  | [] => []
  | sq :: rest => displaySquares.body (displaySquares.norm key) sq ++ displaySquares key rest

end SquareGenerator

/-! ## Closed form of the grid built by `divideScreen` -/

namespace SquareGenerator

/-- Number of iterations of a loop `for (v = 0; v < limit; v += step)` with a positive
step: the least `k` with `limit ≤ k * step`. -/
def loopCount (limit step : Int) : Nat := ((limit + step - 1) / step).toNat

/-- The squares pushed by one run of the inner loop: rows `0 .. rows - 1` of the column
that starts at `i`, in the order of the pushes. -/
def column (i squareWidth squareHeight : Int) : Nat → List Square
  | 0 => []
  | r + 1 =>
    column i squareWidth squareHeight r ++
      [Square.new i ((r : Int) * squareHeight) squareWidth squareHeight]

/-- The squares pushed by the first `cols` iterations of the outer loop. -/
def grid (squareWidth squareHeight : Int) (rows : Nat) : Nat → List Square
  | 0 => []
  | c + 1 =>
    grid squareWidth squareHeight rows c ++
      column ((c : Int) * squareWidth) squareWidth squareHeight rows

end SquareGenerator

/-! ## Vocabulary of the claims about the grid -/

/-- The pixel `(px, py)` lies in the half-open rectangle
`[x, x + width) x [y, y + height)` of the square. -/
def Square.covers (sq : Square) (px py : Int) : Bool :=
  decide (sq.xPos ≤ px ∧ px < sq.xPos + sq.squareWidth ∧
    sq.yPos ≤ py ∧ py < sq.yPos + sq.squareHeight)

/-- The rectangle of the square lies inside the canvas `[0, W) x [0, H)`. -/
def Square.inside (sq : Square) (W H : Int) : Bool :=
  decide (0 ≤ sq.xPos ∧ sq.xPos + sq.squareWidth ≤ W ∧
    0 ≤ sq.yPos ∧ sq.yPos + sq.squareHeight ≤ H)

/-- The number of points that lie in the window of `SQUARE_WIDTH x SQUARE_HEIGHT` pixels at
the corner of the square. -/
def Square.pointsInWindow (sq : Square) (points : List Point2f) : Nat :=
  points.countP (fun p => SquareFeatures.countFeatures.hit sq p)

/-- The number of points that lie in the square's own stored rectangle
`[x, x + width) x [y, y + height)`: the score that the specification asks of
`countFeatures`. -/
def Square.pointsInside (sq : Square) (points : List Point2f) : Nat :=
  points.countP (fun p =>
    decide (((sq.xPos : Int) : ℚ) ≤ p.x ∧ p.x < ((sq.xPos + sq.squareWidth : Int) : ℚ) ∧
      ((sq.yPos : Int) : ℚ) ≤ p.y ∧ p.y < ((sq.yPos + sq.squareHeight : Int) : ℚ)))

/-! ## Vocabulary of the claims about images -/

/-- The value of the pixel of row `b` and column `a`, for indices inside the image. -/
def Mat.px (img : Mat) (b a : Int) : Int := ((img.data b.toNat a.toNat).val : Int)

/-- The sum of the pixel values over the columns `x .. x + w - 1` and the rows
`y .. y + h - 1`. -/
def Mat.rectSum (img : Mat) (x y : Int) (w h : Nat) : Int :=
  ∑ j ∈ Finset.range w, ∑ k ∈ Finset.range h, img.px (y + k) (x + j)

/-- The sum of all pixel values of the image. -/
def Mat.total (img : Mat) : Int :=
  ∑ b ∈ Finset.range img.rows.toNat, ∑ a ∈ Finset.range img.cols.toNat,
    ((img.data b a).val : Int)

/-- Every pixel of the image is 0 or 255. -/
def Mat.isBinary (img : Mat) : Prop :=
  ∀ b, b < img.rows.toNat → ∀ a, a < img.cols.toNat →
    (img.data b a).val = 0 ∨ (img.data b a).val = 255

instance (img : Mat) : Decidable img.isBinary := by
  unfold Mat.isBinary
  infer_instance

/-- Every pixel of the image is at most `M`. -/
def Mat.boundedBy (img : Mat) (M : Int) : Prop :=
  ∀ b, b < img.rows.toNat → ∀ a, a < img.cols.toNat → ((img.data b a).val : Int) ≤ M

instance (img : Mat) (M : Int) : Decidable (img.boundedBy M) := by
  unfold Mat.boundedBy
  infer_instance

/-- The sum of the pixel values over the stored rectangle of the square. -/
def Mat.cellSum (img : Mat) (sq : Square) : Int :=
  img.rectSum sq.xPos sq.yPos sq.squareWidth.toNat sq.squareHeight.toNat

/-- The square with all its reads inside the image: its rectangle starts at non-negative
coordinates and ends within the image. -/
def Mat.contains (img : Mat) (sq : Square) : Prop :=
  0 ≤ sq.xPos ∧ sq.xPos + sq.squareWidth.toNat ≤ img.cols ∧
    0 ≤ sq.yPos ∧ sq.yPos + sq.squareHeight.toNat ≤ img.rows

instance (img : Mat) (sq : Square) : Decidable (img.contains sq) := by
  unfold Mat.contains
  infer_instance

/-- The all-zero image with `rows` rows and `cols` columns (`cv::Mat::zeros`). -/
def Mat.zeros (rows cols : Int) : Mat := { rows := rows, cols := cols, data := fun _ _ => 0 }

/-- The image with `rows` rows and `cols` columns whose pixels all have the value `v`. -/
def Mat.const (rows cols : Int) (v : Fin 256) : Mat :=
  { rows := rows, cols := cols, data := fun _ _ => v }

/-! ## Vocabulary of the claims about updates and display -/

/-- The layout of a square: everything but its score. -/
def Square.layout (sq : Square) : Int × Int × Int × Int :=
  (sq.xPos, sq.yPos, sq.squareWidth, sq.squareHeight)

/-- The renderer call draws a rectangle. -/
def GlCall.isRect : GlCall → Bool
  | .drawSolidRect _ _ _ _ => true
  | .color _ _ _ _ => false

/-! ## The fixed-cell-size variant of `divideScreen` (`src/SquareGenerator.hpp` of the
earlier sources) -/

namespace FixedSizeVariant

/-- The inner loop of the variant:
`for (int j = 0; j <= SCREEN_HEIGHT; j += SQUARE_HEIGHT) squares.push_back(Square(i, j, ...))`,
started at `j`. -/
def divideScreen.loopJ (i : Int) : Nat → Int → List Square → Except Fault (List Square)
  | 0, _, _ => .error .fuelExhausted
  | fuel + 1, j, squares =>
    if j ≤ SCREEN_HEIGHT then
      divideScreen.loopJ i fuel (j + SQUARE_HEIGHT)
        (squares ++ [Square.new i j SQUARE_WIDTH SQUARE_HEIGHT])
    else .ok squares

/-- The outer loop of the variant:
`for (int i = 0; i <= SCREEN_WIDTH; i += SQUARE_WIDTH) { inner loop }`, started at `i`. -/
def divideScreen.loopI (fuelJ : Nat) : Nat → Int → List Square → Except Fault (List Square)
  | 0, _, _ => .error .fuelExhausted
  | fuel + 1, i, squares =>
    if i ≤ SCREEN_WIDTH then
      match divideScreen.loopJ i fuelJ 0 squares with
      | .error e => .error e
      | .ok squares1 => divideScreen.loopI fuelJ fuel (i + SQUARE_WIDTH) squares1
    else .ok squares

/-- The method `SquareGenerator::divideScreen()` of the variant, run on the member vector
`squares`; `fuel` bounds the number of tests of each loop condition. -/
def divideScreen (fuel : Nat) (squares : List Square) : Except Fault (List Square) :=
  divideScreen.loopI fuel fuel 0 squares

end FixedSizeVariant

/-- The number of foreground pixels (value 255) whose column is in `[x, x + width)` and
whose row is in `[y, y + height)`: the score of the count-of-foreground policy. -/
def Mat.foregroundCount (img : Mat) (sq : Square) : Nat :=
  ∑ j ∈ Finset.range sq.squareWidth.toNat, ∑ k ∈ Finset.range sq.squareHeight.toNat,
    if img.px (sq.yPos + k) (sq.xPos + j) = 255 then 1 else 0

/-! ## `OpticalFlowExampleApp`

The application as a state machine over the events of the framework.  Frames are
`Option Mat`: `none` is a `cv::Mat` without data.  The camera, the clock and the OpenCV
routines are collaborators: a delivered frame and the frame counter come with the `update`
event, the routines are the fields of `Vision`.  An OpenCV routine that is handed a frame
without data raises an exception, the fault `emptyFrame`.  The texture `mTexture`, which only
mirrors the camera surface, is left out. -/

/-- The OpenCV routines the application calls, as black boxes on frames with data. -/
structure Vision where
  GaussianBlur : Mat → Mat
  absdiff : Mat → Mat → Mat
  threshold : Mat → Mat
  goodFeaturesToTrack : Mat → List Point2f
  calcOpticalFlowPyrLK : Mat → Mat → List Point2f → List Point2f

/-- Ways in which an event handler of the application can fail. -/
inductive AppFault where
  | emptyFrame
  | grid (fault : Fault)

/-- The aggregation steps and their preprocessing, as the application calls them. -/
inductive AppCall where
  | frameDifferencing (currFrame prevFrame : Option Mat)
  | countPixels (img : Mat)
  | countFeatures (points : List Point2f)

/-- The call hands a frame without data to `frameDifferencing`. -/
def AppCall.passesEmptyFrame : AppCall → Bool
  | .frameDifferencing currFrame prevFrame => currFrame.isNone || prevFrame.isNone
  | .countPixels _ => false
  | .countFeatures _ => false

/-- What `draw` sends to the renderer: `gl::clear`, then the calls of `displaySquares`. -/
inductive DrawCall where
  | clear
  | square (call : GlCall)

/-- The renderer call draws a rectangle. -/
def DrawCall.isRect : DrawCall → Bool
  | .clear => false
  | .square call => call.isRect

/-- The method `SquareFrameDiff::frameDifferencing(cv::Mat currFrame, cv::Mat prevFrame)`:
blur of the current frame, absolute difference to the previous one, threshold. -/
def SquareFrameDiff.frameDifferencing (cv : Vision) (currFrame prevFrame : Option Mat) :
    Except AppFault Mat :=
  match currFrame, prevFrame with
  | some curr, some prev => .ok (cv.threshold (cv.absdiff (cv.GaussianBlur curr) prev))
  | _, _ => .error .emptyFrame

/-- The members of `OpticalFlowExampleApp` that the event handlers read and write. -/
structure OpticalFlowExampleApp where
  mSurface : Option Mat
  mPrevFrame : Option Mat
  mCurrFrame : Option Mat
  mBGFrame : Option Mat
  mPrevFeatures : List Point2f
  mFeatures : List Point2f
  squareFeat : List Square
  squareDiff : List Square
  keyPressed : Char

/-- The outcome of an event handler: the aggregation calls it made, what it sent to the
renderer, and the state it left or the fault that ended it. -/
structure Outcome where
  calls : List AppCall
  drawn : List DrawCall
  state : Except AppFault OpticalFlowExampleApp

namespace OpticalFlowExampleApp

def ELAPSED_FRAMES : Nat := 300

/-- The application object once both grids are built: no surface, no frames, no features.
The member `keyPressed` has no initialiser; its first value is a parameter. -/
def init (squareFeat squareDiff : List Square) (keyPressed : Char) : OpticalFlowExampleApp :=
  { mSurface := none, mPrevFrame := none, mCurrFrame := none, mBGFrame := none,
    mPrevFeatures := [], mFeatures := [],
    squareFeat := squareFeat, squareDiff := squareDiff, keyPressed := keyPressed }

/-- The method `setup()` on a window of `windowWidth x windowHeight` pixels: both grids are
divided into `NUMBER_OF_SQUARES`; the failure to create the capture is only logged. -/
def setup (fuel : Nat) (windowWidth windowHeight : Int) (keyPressed : Char) :
    Except Fault OpticalFlowExampleApp :=
  match SquareGenerator.divideScreen fuel windowWidth windowHeight NUMBER_OF_SQUARES [] with
  | .error e => .error e
  | .ok squareFeat =>
    match SquareGenerator.divideScreen fuel windowWidth windowHeight NUMBER_OF_SQUARES [] with
    | .error e => .error e
    | .ok squareDiff => .ok (init squareFeat squareDiff keyPressed)

/-- The method `keyDown(KeyEvent event)` for the character `c`.  The space bar makes
`mBGFrame` share the buffer of `mCurrFrame` and blurs it in place. -/
def keyDown (cv : Vision) (app : OpticalFlowExampleApp) (c : Char) : Outcome :=
  let afterSpace : Except AppFault OpticalFlowExampleApp :=
    if c = ' ' then
      match app.mCurrFrame with
      | none => .error .emptyFrame
      | some frame =>
        .ok { app with mBGFrame := some (cv.GaussianBlur frame),
                       mCurrFrame := some (cv.GaussianBlur frame) }
    else .ok app
  match afterSpace with
  | .error e => { calls := [], drawn := [], state := .error e }
  | .ok app1 =>
    let app2 := if c = 'f' then { app1 with keyPressed := 'f' } else app1
    let app3 := if c = 'd' then { app2 with keyPressed := 'd' } else app2
    { calls := [], drawn := [], state := .ok app3 }

/-- The method `bsFrameDifference()`: the difference to the background frame and, in
mode `'d'`, the difference to the previous frame and its pixel counts.  It returns the calls
made and the state with the difference image, or the fault. -/
def bsFrameDifference (cv : Vision) (app : OpticalFlowExampleApp) :
    List AppCall × Except AppFault (OpticalFlowExampleApp × Mat) :=
  let calls1 := [AppCall.frameDifferencing app.mCurrFrame app.mBGFrame]
  match SquareFrameDiff.frameDifferencing cv app.mCurrFrame app.mBGFrame with
  | .error e => (calls1, .error e)
  | .ok outputImg =>
    if app.keyPressed = 'd' then
      let calls2 := calls1 ++ [AppCall.frameDifferencing app.mCurrFrame app.mPrevFrame]
      match SquareFrameDiff.frameDifferencing cv app.mCurrFrame app.mPrevFrame with
      | .error e => (calls2, .error e)
      | .ok img =>
        let calls3 := calls2 ++ [AppCall.countPixels img]
        match SquareFrameDiff.countPixels img app.squareDiff with
        | .error e => (calls3, .error (.grid e))
        | .ok squareDiff => (calls3, .ok ({ app with squareDiff := squareDiff }, outputImg))
    else (calls1, .ok (app, outputImg))

/-- The method `opticalFlow()`, at frame counter `elapsedFrames`. -/
def opticalFlow (cv : Vision) (elapsedFrames : Nat) (app : OpticalFlowExampleApp) : Outcome :=
  if app.mSurface.isNone then { calls := [], drawn := [], state := .ok app }
  else if app.mBGFrame.isNone then { calls := [], drawn := [], state := .ok app }
  else
    match bsFrameDifference cv app with
    | (calls, .error e) => { calls := calls, drawn := [], state := .error e }
    | (calls, .ok (app1, currFrame)) =>
      let mFeatures1 :=
        match app1.mPrevFrame with
        | some _ =>
          if app1.mFeatures.length < 5 ∨ elapsedFrames % ELAPSED_FRAMES = 0 then
            cv.goodFeaturesToTrack currFrame
          else app1.mFeatures
        | none => app1.mFeatures
      let tracked : Except AppFault (List Point2f) :=
        if mFeatures1.isEmpty then .ok mFeatures1
        else
          match app1.mPrevFrame with
          | some prev => .ok (cv.calcOpticalFlowPyrLK prev currFrame mFeatures1)
          | none => .error .emptyFrame
      match tracked with
      | .error e => { calls := calls, drawn := [], state := .error e }
      | .ok mFeatures2 =>
        let app2 := { app1 with mPrevFeatures := mFeatures1, mFeatures := mFeatures2,
                                mPrevFrame := some currFrame }
        if app2.keyPressed = 'f' then
          { calls := calls ++ [AppCall.countFeatures mFeatures2], drawn := [],
            state := .ok { app2 with
              squareFeat := SquareFeatures.countFeatures mFeatures2 app2.squareFeat } }
        else { calls := calls, drawn := [], state := .ok app2 }

/-- The method `update()`: `newFrame` is the frame of the camera when the capture exists and
has a new one. -/
def update (cv : Vision) (newFrame : Option Mat) (elapsedFrames : Nat)
    (app : OpticalFlowExampleApp) : Outcome :=
  let app1 :=
    match newFrame with
    | some frame => { app with mSurface := some frame, mCurrFrame := some frame }
    | none => app
  opticalFlow cv elapsedFrames app1

/-- The method `draw()`. -/
def draw (app : OpticalFlowExampleApp) : Outcome :=
  { calls := [],
    drawn := DrawCall.clear ::
      (if app.keyPressed = 'f' then
        (SquareGenerator.displaySquares app.keyPressed app.squareFeat).map DrawCall.square
      else if app.keyPressed = 'd' then
        (SquareGenerator.displaySquares app.keyPressed app.squareDiff).map DrawCall.square
      else []),
    state := .ok app }

/-- The method `mouseDown(MouseEvent event)`: it does nothing. -/
def mouseDown (app : OpticalFlowExampleApp) : Outcome :=
  { calls := [], drawn := [], state := .ok app }

end OpticalFlowExampleApp

/-- The events the framework delivers to the application. -/
inductive Event where
  | update (newFrame : Option Mat) (elapsedFrames : Nat)
  | draw
  | keyDown (c : Char)
  | mouseDown

/-- The event delivers no camera frame and presses no key other than `'f'` and `'d'`. -/
def Event.quiet : Event → Bool
  | .update newFrame _ => newFrame.isNone
  | .draw => true
  | .keyDown c => c = 'f' || c = 'd'
  | .mouseDown => true

namespace OpticalFlowExampleApp

/-- One event handled in a state. -/
def step (cv : Vision) (app : OpticalFlowExampleApp) : Event → Outcome
  | .update newFrame elapsedFrames => update cv newFrame elapsedFrames app
  | .draw => draw app
  | .keyDown c => keyDown cv app c
  | .mouseDown => mouseDown app

/-- A sequence of events handled one after the other; a fault ends the run. -/
def run (cv : Vision) (app : OpticalFlowExampleApp) : List Event → Outcome
  | [] => { calls := [], drawn := [], state := .ok app }
  | e :: rest =>
    match step cv app e with
    | { calls := calls, drawn := drawn, state := .error f } =>
      { calls := calls, drawn := drawn, state := .error f }
    | { calls := calls, drawn := drawn, state := .ok app1 } =>
      let later := run cv app1 rest
      { calls := calls ++ later.calls, drawn := drawn ++ later.drawn, state := later.state }

/-- The state has no camera surface and both grids have all scores 0. -/
def Idle (app : OpticalFlowExampleApp) : Prop :=
  app.mSurface = none ∧ (∀ sq ∈ app.squareFeat, sq.numFeatures = 0) ∧
    ∀ sq ∈ app.squareDiff, sq.numFeatures = 0

end OpticalFlowExampleApp

/-! ## The loops of `divideScreen` compute the closed form -/

namespace SquareGenerator

theorem loopCount_mul_ge (limit step : Int) (hstep : 0 < step) :
    limit ≤ (loopCount limit step : Int) * step := by
  unfold loopCount
  have h1 := Int.ediv_add_emod (limit + step - 1) step
  have h2 := Int.emod_nonneg (limit + step - 1) (ne_of_gt hstep)
  have h3 := Int.emod_lt_of_pos (limit + step - 1) hstep
  rcases le_or_lt 0 ((limit + step - 1) / step) with hq | hq
  · rw [Int.toNat_of_nonneg hq, mul_comm]
    omega
  · have h4 : ((limit + step - 1) / step).toNat = 0 := by omega
    rw [h4]
    have h5 : step * ((limit + step - 1) / step) ≤ step * (-1) :=
      mul_le_mul_of_nonneg_left (by omega) (le_of_lt hstep)
    simp only [Nat.cast_zero, zero_mul]
    omega

theorem lt_of_lt_loopCount (limit step : Int) (hstep : 0 < step) (m : Nat)
    (hm : m < loopCount limit step) : (m : Int) * step < limit := by
  unfold loopCount at hm
  have h1 := Int.ediv_add_emod (limit + step - 1) step
  have h2 := Int.emod_nonneg (limit + step - 1) (ne_of_gt hstep)
  have h3 := Int.emod_lt_of_pos (limit + step - 1) hstep
  have hq : (m : Int) + 1 ≤ (limit + step - 1) / step := by omega
  have h5 : step * ((m : Int) + 1) ≤ step * ((limit + step - 1) / step) :=
    mul_le_mul_of_nonneg_left hq (le_of_lt hstep)
  have h6 : step * ((m : Int) + 1) = (m : Int) * step + step := by ring
  omega

theorem loopJ_column (windowHeight i squareWidth squareHeight : Int) (hstep : 0 < squareHeight)
    (pre : List Square) :
    ∀ (d m fuel : Nat), m + d = loopCount windowHeight squareHeight → d < fuel →
      divideScreen.loopJ windowHeight i squareWidth squareHeight fuel ((m : Int) * squareHeight)
          (pre ++ column i squareWidth squareHeight m) =
        .ok (pre ++ column i squareWidth squareHeight (loopCount windowHeight squareHeight)) := by
  intro d
  induction d with
  | zero =>
    intro m fuel hm hfuel
    obtain ⟨f, rfl⟩ : ∃ f, fuel = f + 1 := ⟨fuel - 1, by omega⟩
    have hge := loopCount_mul_ge windowHeight squareHeight hstep
    have hm1 : m = loopCount windowHeight squareHeight := by omega
    subst hm1
    unfold divideScreen.loopJ
    rw [if_neg (by omega)]
  | succ d ih =>
    intro m fuel hm hfuel
    obtain ⟨f, rfl⟩ : ∃ f, fuel = f + 1 := ⟨fuel - 1, by omega⟩
    have hlt := lt_of_lt_loopCount windowHeight squareHeight hstep m (by omega)
    unfold divideScreen.loopJ
    rw [if_pos hlt]
    have hnext : (m : Int) * squareHeight + squareHeight = ((m + 1 : Nat) : Int) * squareHeight := by
      push_cast; ring
    rw [hnext, List.append_assoc]
    exact ih (m + 1) f (by omega) (by omega)

theorem loopI_grid (windowWidth windowHeight squareWidth squareHeight : Int)
    (hw : 0 < squareWidth) (hh : 0 < squareHeight) (pre : List Square) (fuelJ : Nat)
    (hfuelJ : loopCount windowHeight squareHeight < fuelJ) :
    ∀ (d c fuel : Nat), c + d = loopCount windowWidth squareWidth → d < fuel →
      divideScreen.loopI windowWidth windowHeight squareWidth squareHeight fuelJ fuel
          ((c : Int) * squareWidth)
          (pre ++ grid squareWidth squareHeight (loopCount windowHeight squareHeight) c) =
        .ok (pre ++ grid squareWidth squareHeight (loopCount windowHeight squareHeight)
          (loopCount windowWidth squareWidth)) := by
  intro d
  induction d with
  | zero =>
    intro c fuel hc hfuel
    obtain ⟨f, rfl⟩ : ∃ f, fuel = f + 1 := ⟨fuel - 1, by omega⟩
    have hge := loopCount_mul_ge windowWidth squareWidth hw
    have hc1 : c = loopCount windowWidth squareWidth := by omega
    subst hc1
    unfold divideScreen.loopI
    rw [if_neg (by omega)]
  | succ d ih =>
    intro c fuel hc hfuel
    obtain ⟨f, rfl⟩ : ∃ f, fuel = f + 1 := ⟨fuel - 1, by omega⟩
    have hlt := lt_of_lt_loopCount windowWidth squareWidth hw c (by omega)
    unfold divideScreen.loopI
    rw [if_pos hlt]
    have hJ := loopJ_column windowHeight ((c : Int) * squareWidth) squareWidth squareHeight hh
      (pre ++ grid squareWidth squareHeight (loopCount windowHeight squareHeight) c)
      (loopCount windowHeight squareHeight) 0 fuelJ (by omega) hfuelJ
    simp only [column, List.append_nil, Nat.cast_zero, zero_mul] at hJ
    rw [hJ]
    have hnext : (c : Int) * squareWidth + squareWidth = ((c + 1 : Nat) : Int) * squareWidth := by
      push_cast; ring
    simp only [hnext, List.append_assoc]
    exact ih (c + 1) f (by omega) (by omega)

/-- With positive cell sizes and enough fuel `divideScreen` appends the closed-form grid. -/
theorem divideScreen_eq_grid (fuel : Nat) (windowWidth windowHeight numSquares : Int)
    (pre : List Square) (hn : numSquares ≠ 0)
    (hw : 0 < Int.tdiv windowWidth numSquares) (hh : 0 < Int.tdiv windowHeight numSquares)
    (hfuelI : loopCount windowWidth (Int.tdiv windowWidth numSquares) < fuel)
    (hfuelJ : loopCount windowHeight (Int.tdiv windowHeight numSquares) < fuel) :
    divideScreen fuel windowWidth windowHeight numSquares pre =
      .ok (pre ++ grid (Int.tdiv windowWidth numSquares) (Int.tdiv windowHeight numSquares)
        (loopCount windowHeight (Int.tdiv windowHeight numSquares))
        (loopCount windowWidth (Int.tdiv windowWidth numSquares))) := by
  unfold divideScreen
  rw [if_neg hn]
  have h := loopI_grid windowWidth windowHeight _ _ hw hh pre fuel hfuelJ
    (loopCount windowWidth (Int.tdiv windowWidth numSquares)) 0 fuel (by omega) hfuelI
  simpa [grid] using h

end SquareGenerator

/-! ## Fuel: monotonicity and divergence -/

namespace SquareGenerator

theorem loopJ_fuel_mono (windowHeight i squareWidth squareHeight : Int) :
    ∀ (fuel fuel1 : Nat) (j : Int) (squares result : List Square), fuel ≤ fuel1 →
      divideScreen.loopJ windowHeight i squareWidth squareHeight fuel j squares = .ok result →
      divideScreen.loopJ windowHeight i squareWidth squareHeight fuel1 j squares = .ok result := by
  intro fuel
  induction fuel with
  | zero =>
    intro fuel1 j squares result _ h
    simp [divideScreen.loopJ] at h
  | succ f ih =>
    intro fuel1 j squares result hle h
    obtain ⟨f1, rfl⟩ : ∃ f1, fuel1 = f1 + 1 := ⟨fuel1 - 1, by omega⟩
    unfold divideScreen.loopJ at h ⊢
    by_cases hj : j < windowHeight
    · rw [if_pos hj] at h ⊢
      exact ih f1 _ _ _ (by omega) h
    · rw [if_neg hj] at h ⊢
      exact h

theorem loopJ_error (windowHeight i squareWidth squareHeight : Int) :
    ∀ (fuel : Nat) (j : Int) (squares : List Square) (e : Fault),
      divideScreen.loopJ windowHeight i squareWidth squareHeight fuel j squares = .error e →
      e = Fault.fuelExhausted := by
  intro fuel
  induction fuel with
  | zero =>
    intro j squares e h
    simp only [divideScreen.loopJ, Except.error.injEq] at h
    exact h.symm
  | succ f ih =>
    intro j squares e h
    unfold divideScreen.loopJ at h
    by_cases hj : j < windowHeight
    · rw [if_pos hj] at h
      exact ih _ _ _ h
    · rw [if_neg hj] at h
      cases h

theorem loopI_fuel_mono (windowWidth windowHeight squareWidth squareHeight : Int)
    (fuelJ fuelJ1 : Nat) (hJ : fuelJ ≤ fuelJ1) :
    ∀ (fuel fuel1 : Nat) (i : Int) (squares result : List Square), fuel ≤ fuel1 →
      divideScreen.loopI windowWidth windowHeight squareWidth squareHeight fuelJ fuel i squares =
        .ok result →
      divideScreen.loopI windowWidth windowHeight squareWidth squareHeight fuelJ1 fuel1 i squares =
        .ok result := by
  intro fuel
  induction fuel with
  | zero =>
    intro fuel1 i squares result _ h
    simp [divideScreen.loopI] at h
  | succ f ih =>
    intro fuel1 i squares result hle h
    obtain ⟨f1, rfl⟩ : ∃ f1, fuel1 = f1 + 1 := ⟨fuel1 - 1, by omega⟩
    unfold divideScreen.loopI at h ⊢
    by_cases hi : i < windowWidth
    · rw [if_pos hi] at h ⊢
      cases hrun : divideScreen.loopJ windowHeight i squareWidth squareHeight fuelJ 0 squares with
      | error e => rw [hrun] at h; cases h
      | ok squares1 =>
        rw [hrun] at h
        rw [loopJ_fuel_mono windowHeight i squareWidth squareHeight fuelJ fuelJ1 0 squares
          squares1 hJ hrun]
        exact ih f1 _ _ _ (by omega) h
    · rw [if_neg hi] at h ⊢
      exact h

/-- A result that `divideScreen` reaches with some fuel is reached with any larger fuel. -/
theorem divideScreen_fuel_mono (fuel fuel1 : Nat) (hle : fuel ≤ fuel1)
    (windowWidth windowHeight numSquares : Int) (squares result : List Square)
    (h : divideScreen fuel windowWidth windowHeight numSquares squares = .ok result) :
    divideScreen fuel1 windowWidth windowHeight numSquares squares = .ok result := by
  unfold divideScreen at h ⊢
  by_cases hn : numSquares = 0
  · rw [if_pos hn] at h; cases h
  · rw [if_neg hn] at h ⊢
    exact loopI_fuel_mono _ _ _ _ fuel fuel1 hle fuel fuel1 0 squares result hle h

theorem loopJ_diverges (windowHeight i squareWidth squareHeight : Int) (hstep : squareHeight ≤ 0) :
    ∀ (fuel : Nat) (j : Int) (squares : List Square), j < windowHeight →
      divideScreen.loopJ windowHeight i squareWidth squareHeight fuel j squares =
        .error Fault.fuelExhausted := by
  intro fuel
  induction fuel with
  | zero => intro j squares _; rfl
  | succ f ih =>
    intro j squares hj
    unfold divideScreen.loopJ
    rw [if_pos hj]
    exact ih _ _ (by omega)

theorem loopI_diverges (windowWidth windowHeight squareWidth squareHeight : Int)
    (hstep : squareWidth ≤ 0) (fuelJ : Nat) :
    ∀ (fuel : Nat) (i : Int) (squares : List Square), i < windowWidth →
      divideScreen.loopI windowWidth windowHeight squareWidth squareHeight fuelJ fuel i squares =
        .error Fault.fuelExhausted := by
  intro fuel
  induction fuel with
  | zero => intro i squares _; rfl
  | succ f ih =>
    intro i squares hi
    unfold divideScreen.loopI
    rw [if_pos hi]
    cases hrun : divideScreen.loopJ windowHeight i squareWidth squareHeight fuelJ 0 squares with
    | error e => rw [loopJ_error _ _ _ _ _ _ _ _ hrun]
    | ok squares1 => exact ih _ _ (by omega)

/-- On a non-empty window a cell size that is not positive keeps `divideScreen` from
returning, whatever the fuel. -/
theorem divideScreen_diverges (windowWidth windowHeight numSquares : Int)
    (hW : 0 < windowWidth) (hH : 0 < windowHeight) (hn : numSquares ≠ 0)
    (hsize : Int.tdiv windowWidth numSquares ≤ 0 ∨ Int.tdiv windowHeight numSquares ≤ 0)
    (fuel : Nat) (squares : List Square) :
    divideScreen fuel windowWidth windowHeight numSquares squares = .error Fault.fuelExhausted := by
  unfold divideScreen
  rw [if_neg hn]
  rcases hsize with hw | hh
  · exact loopI_diverges _ _ _ _ hw fuel fuel 0 squares hW
  · cases fuel with
    | zero => rfl
    | succ f =>
      unfold divideScreen.loopI
      rw [if_pos hW, loopJ_diverges _ _ _ _ hh (f + 1) 0 squares hH]

/-- The result of a returning `divideScreen` on positive cell sizes is the closed-form grid. -/
theorem divideScreenReturns_iff (windowWidth windowHeight numSquares : Int)
    (pre squares : List Square) (hn : numSquares ≠ 0)
    (hw : 0 < Int.tdiv windowWidth numSquares) (hh : 0 < Int.tdiv windowHeight numSquares) :
    DivideScreenReturns windowWidth windowHeight numSquares pre squares ↔
      squares = pre ++ grid (Int.tdiv windowWidth numSquares) (Int.tdiv windowHeight numSquares)
        (loopCount windowHeight (Int.tdiv windowHeight numSquares))
        (loopCount windowWidth (Int.tdiv windowWidth numSquares)) := by
  constructor
  · rintro ⟨fuel, hfuel⟩
    have hbig := divideScreen_fuel_mono fuel
      (fuel + loopCount windowWidth (Int.tdiv windowWidth numSquares) +
        loopCount windowHeight (Int.tdiv windowHeight numSquares) + 1) (by omega)
      windowWidth windowHeight numSquares pre squares hfuel
    rw [divideScreen_eq_grid _ _ _ _ pre hn hw hh (by omega) (by omega)] at hbig
    exact (Except.ok.inj hbig).symm
  · rintro rfl
    exact ⟨loopCount windowWidth (Int.tdiv windowWidth numSquares) +
        loopCount windowHeight (Int.tdiv windowHeight numSquares) + 1,
      divideScreen_eq_grid _ _ _ _ pre hn hw hh (by omega) (by omega)⟩

theorem column_length (i squareWidth squareHeight : Int) (rows : Nat) :
    (column i squareWidth squareHeight rows).length = rows := by
  induction rows with
  | zero => rfl
  | succ r ih => simp [column, ih]

theorem grid_length (squareWidth squareHeight : Int) (rows cols : Nat) :
    (grid squareWidth squareHeight rows cols).length = cols * rows := by
  induction cols with
  | zero => simp [grid]
  | succ c ih => simp [grid, ih, column_length, Nat.succ_mul]

theorem mem_column (i squareWidth squareHeight : Int) (rows : Nat) (sq : Square) :
    sq ∈ column i squareWidth squareHeight rows ↔
      ∃ r : Nat, r < rows ∧ sq = Square.new i ((r : Int) * squareHeight) squareWidth squareHeight := by
  induction rows with
  | zero => simp [column]
  | succ n ih =>
    simp only [column, List.mem_append, ih, List.mem_singleton]
    constructor
    · rintro (⟨r, hr, rfl⟩ | rfl)
      · exact ⟨r, by omega, rfl⟩
      · exact ⟨n, by omega, rfl⟩
    · rintro ⟨r, hr, rfl⟩
      rcases Nat.lt_succ_iff_lt_or_eq.mp hr with h | h
      · exact Or.inl ⟨r, h, rfl⟩
      · subst h; exact Or.inr rfl

theorem mem_grid (squareWidth squareHeight : Int) (rows cols : Nat) (sq : Square) :
    sq ∈ grid squareWidth squareHeight rows cols ↔
      ∃ c r : Nat, c < cols ∧ r < rows ∧
        sq = Square.new ((c : Int) * squareWidth) ((r : Int) * squareHeight)
          squareWidth squareHeight := by
  induction cols with
  | zero => simp [grid]
  | succ n ih =>
    simp only [grid, List.mem_append, ih, mem_column]
    constructor
    · rintro (⟨c, r, hc, hr, rfl⟩ | ⟨r, hr, rfl⟩)
      · exact ⟨c, r, by omega, hr, rfl⟩
      · exact ⟨n, r, by omega, hr, rfl⟩
    · rintro ⟨c, r, hc, hr, rfl⟩
      rcases Nat.lt_succ_iff_lt_or_eq.mp hc with h | h
      · exact Or.inl ⟨c, r, h, hr, rfl⟩
      · subst h; exact Or.inr ⟨r, hr, rfl⟩

end SquareGenerator

/-! ## Arithmetic of the cell size `W / n` and of the number of columns -/

namespace SquareGenerator

theorem tdiv_pos_iff (W n : Int) (hW : 1 ≤ W) (hn : 1 ≤ n) :
    Int.tdiv W n = W / n ∧ (0 < W / n ↔ n ≤ W) := by
  refine ⟨Int.tdiv_eq_ediv (by omega) (by omega), ?_⟩
  have h1 := Int.ediv_add_emod W n
  have h2 := Int.emod_nonneg W (show n ≠ 0 by omega)
  have h3 := Int.emod_lt_of_pos W (show 0 < n by omega)
  constructor
  · intro hpos
    have h4 : n * 1 ≤ n * (W / n) := mul_le_mul_of_nonneg_left (by omega) (by omega)
    omega
  · intro hle
    by_contra hq
    have h4 : n * (W / n) ≤ n * 0 := mul_le_mul_of_nonneg_left (by omega) (by omega)
    omega

theorem loopCount_pos (limit step : Int) (hlimit : 1 ≤ limit) (hstep : 0 < step) :
    0 < loopCount limit step := by
  have h := loopCount_mul_ge limit step hstep
  rcases Nat.eq_zero_or_pos (loopCount limit step) with h0 | h0
  · rw [h0] at h; simp at h; omega
  · exact h0

theorem loopCount_mul_eq_iff (limit step : Int) (hlimit : 1 ≤ limit) (hstep : 0 < step) :
    (loopCount limit step : Int) * step = limit ↔ step ∣ limit := by
  constructor
  · intro h
    exact Dvd.intro_left _ h
  · rintro ⟨k, hk⟩
    have hge := loopCount_mul_ge limit step hstep
    have hpos := loopCount_pos limit step hlimit hstep
    have hlt := lt_of_lt_loopCount limit step hstep (loopCount limit step - 1) (by omega)
    have hcast : ((loopCount limit step - 1 : Nat) : Int) = (loopCount limit step : Int) - 1 := by
      omega
    rw [hcast] at hlt
    have hck : (loopCount limit step : Int) - 1 < k := by
      by_contra hcon
      have h4 : k * step ≤ ((loopCount limit step : Int) - 1) * step :=
        mul_le_mul_of_nonneg_right (by omega) (le_of_lt hstep)
      rw [mul_comm] at hk
      omega
    have h5 : (loopCount limit step : Int) * step ≤ k * step :=
      mul_le_mul_of_nonneg_right (by omega) (le_of_lt hstep)
    rw [mul_comm] at hk
    omega

theorem le_loopCount_div (W n : Int) (hn : 1 ≤ n) (hnW : n ≤ W) :
    n ≤ (loopCount W (W / n) : Int) := by
  have hs : 0 < W / n := (tdiv_pos_iff W n (by omega) hn).2.2 hnW
  have h1 := Int.ediv_add_emod W n
  have h2 := Int.emod_nonneg W (show n ≠ 0 by omega)
  have hge := loopCount_mul_ge W (W / n) hs
  by_contra hcon
  have h4 : (loopCount W (W / n) : Int) * (W / n) ≤ (n - 1) * (W / n) :=
    mul_le_mul_of_nonneg_right (by omega) (le_of_lt hs)
  have h5 : (n - 1) * (W / n) = n * (W / n) - W / n := by ring
  omega

theorem loopCount_div_eq_iff (W n : Int) (hn : 1 ≤ n) (hnW : n ≤ W) :
    (loopCount W (W / n) : Int) = n ↔ n ∣ W := by
  have hs : 0 < W / n := (tdiv_pos_iff W n (by omega) hn).2.2 hnW
  constructor
  · intro h
    have hge := loopCount_mul_ge W (W / n) hs
    rw [h] at hge
    have h1 := Int.ediv_add_emod W n
    have h2 := Int.emod_nonneg W (show n ≠ 0 by omega)
    exact Int.dvd_of_emod_eq_zero (by omega)
  · intro hdvd
    have hW : n * (W / n) = W := Int.mul_ediv_cancel' hdvd
    have hle := le_loopCount_div W n hn hnW
    have hpos := loopCount_pos W (W / n) (by omega) hs
    have hlt := lt_of_lt_loopCount W (W / n) hs (loopCount W (W / n) - 1) (by omega)
    have hcast : ((loopCount W (W / n) - 1 : Nat) : Int) = (loopCount W (W / n) : Int) - 1 := by
      omega
    rw [hcast] at hlt
    by_contra hne
    have h4 : n * (W / n) ≤ ((loopCount W (W / n) : Int) - 1) * (W / n) :=
      mul_le_mul_of_nonneg_right (by omega) (le_of_lt hs)
    omega

/-- A division count that divides the window side is at most that side and yields a
cell size that divides it too. -/
theorem dvd_cell_size (W n : Int) (hW : 1 ≤ W) (hdvd : n ∣ W) :
    n ≤ W ∧ W / n ∣ W :=
  ⟨Int.le_of_dvd (by omega) hdvd, Dvd.intro_left n (Int.mul_ediv_cancel' hdvd)⟩

end SquareGenerator

/-! ## Which cells of the grid cover a pixel -/

namespace SquareGenerator

theorem divideScreenReturns_unique (windowWidth windowHeight numSquares : Int)
    (pre squares1 squares2 : List Square)
    (h1 : DivideScreenReturns windowWidth windowHeight numSquares pre squares1)
    (h2 : DivideScreenReturns windowWidth windowHeight numSquares pre squares2) :
    squares1 = squares2 := by
  obtain ⟨f1, hf1⟩ := h1
  obtain ⟨f2, hf2⟩ := h2
  have e1 := divideScreen_fuel_mono f1 (f1 + f2) (by omega) _ _ _ _ _ hf1
  have e2 := divideScreen_fuel_mono f2 (f1 + f2) (by omega) _ _ _ _ _ hf2
  rw [e1] at e2
  exact Except.ok.inj e2

theorem countP_covers_column (i squareWidth squareHeight : Int) (hh : 0 < squareHeight)
    (px py : Int) (rows : Nat) :
    (column i squareWidth squareHeight rows).countP (fun sq => sq.covers px py) =
      if i ≤ px ∧ px < i + squareWidth ∧ 0 ≤ py ∧ py < (rows : Int) * squareHeight then 1
      else 0 := by
  induction rows with
  | zero =>
    simp only [column, List.countP_nil, Nat.cast_zero, zero_mul]
    rw [if_neg (by omega)]
  | succ r ih =>
    have hnext : ((r + 1 : Nat) : Int) * squareHeight = (r : Int) * squareHeight + squareHeight := by
      push_cast; ring
    have hr : 0 ≤ (r : Int) * squareHeight := mul_nonneg (by omega) (le_of_lt hh)
    rw [column, List.countP_append, ih, hnext]
    simp only [List.countP_cons, List.countP_nil, Square.covers, Square.new, decide_eq_true_eq]
    split_ifs <;> omega

theorem countP_covers_grid (squareWidth squareHeight : Int) (hw : 0 < squareWidth)
    (hh : 0 < squareHeight) (px py : Int) (rows cols : Nat) :
    (grid squareWidth squareHeight rows cols).countP (fun sq => sq.covers px py) =
      if 0 ≤ px ∧ px < (cols : Int) * squareWidth ∧ 0 ≤ py ∧ py < (rows : Int) * squareHeight
      then 1 else 0 := by
  induction cols with
  | zero =>
    simp only [grid, List.countP_nil, Nat.cast_zero, zero_mul]
    rw [if_neg (by omega)]
  | succ c ih =>
    have hnext : ((c + 1 : Nat) : Int) * squareWidth = (c : Int) * squareWidth + squareWidth := by
      push_cast; ring
    have hc : 0 ≤ (c : Int) * squareWidth := mul_nonneg (by omega) (le_of_lt hw)
    rw [grid, List.countP_append, ih, countP_covers_column _ _ _ hh, hnext]
    split_ifs <;> omega

theorem grid_inside_iff (W H squareWidth squareHeight : Int) (hW : 1 ≤ W) (hH : 1 ≤ H)
    (hw : 0 < squareWidth) (hh : 0 < squareHeight) :
    (∀ sq ∈ grid squareWidth squareHeight (loopCount H squareHeight) (loopCount W squareWidth),
        sq.inside W H = true) ↔ (squareWidth ∣ W ∧ squareHeight ∣ H) := by
  have hcpos := loopCount_pos W squareWidth hW hw
  have hrpos := loopCount_pos H squareHeight hH hh
  have hcge := loopCount_mul_ge W squareWidth hw
  have hrge := loopCount_mul_ge H squareHeight hh
  rw [← loopCount_mul_eq_iff W squareWidth hW hw, ← loopCount_mul_eq_iff H squareHeight hH hh]
  constructor
  · intro hall
    have hlast := hall _ ((mem_grid _ _ _ _ _).2
      ⟨loopCount W squareWidth - 1, loopCount H squareHeight - 1, by omega, by omega, rfl⟩)
    simp only [Square.inside, Square.new, decide_eq_true_eq] at hlast
    have e1 : ((loopCount W squareWidth - 1 : Nat) : Int) * squareWidth + squareWidth =
        (loopCount W squareWidth : Int) * squareWidth := by
      rw [Nat.cast_sub (by omega)]; push_cast; ring
    have e2 : ((loopCount H squareHeight - 1 : Nat) : Int) * squareHeight + squareHeight =
        (loopCount H squareHeight : Int) * squareHeight := by
      rw [Nat.cast_sub (by omega)]; push_cast; ring
    omega
  · rintro ⟨hc, hr⟩ sq hsq
    obtain ⟨c, r, hclt, hrlt, rfl⟩ := (mem_grid _ _ _ _ _).1 hsq
    simp only [Square.inside, Square.new, decide_eq_true_eq]
    have h1 : ((c : Int) + 1) * squareWidth ≤ (loopCount W squareWidth : Int) * squareWidth :=
      mul_le_mul_of_nonneg_right (by omega) (le_of_lt hw)
    have h2 : ((r : Int) + 1) * squareHeight ≤ (loopCount H squareHeight : Int) * squareHeight :=
      mul_le_mul_of_nonneg_right (by omega) (le_of_lt hh)
    have h3 : ((c : Int) + 1) * squareWidth = (c : Int) * squareWidth + squareWidth := by ring
    have h4 : ((r : Int) + 1) * squareHeight = (r : Int) * squareHeight + squareHeight := by ring
    have h5 : 0 ≤ (c : Int) * squareWidth := mul_nonneg (by omega) (le_of_lt hw)
    have h6 : 0 ≤ (r : Int) * squareHeight := mul_nonneg (by omega) (le_of_lt hh)
    omega

end SquareGenerator

/-! ## The loops of `countPixels` compute rectangle sums -/

theorem wrap32_of_range (v : Int) (h0 : 0 ≤ v) (h1 : v < 2147483648) : wrap32 v = v := by
  unfold wrap32
  omega

theorem wrap32_add_wrap (v u : Int) : wrap32 (wrap32 v + u) = wrap32 (v + u) := by
  unfold wrap32
  omega

theorem Mat.px_nonneg (img : Mat) (b a : Int) : 0 ≤ img.px b a := by
  unfold Mat.px
  exact Int.natCast_nonneg _

theorem Mat.px_le (img : Mat) (M : Int) (hM : img.boundedBy M) (b a : Int)
    (hb0 : 0 ≤ b) (hb : b < img.rows) (ha0 : 0 ≤ a) (ha : a < img.cols) : img.px b a ≤ M := by
  unfold Mat.px
  exact hM b.toNat (by omega) a.toNat (by omega)

theorem Mat.at?_eq (img : Mat) (b a : Int)
    (hb0 : 0 ≤ b) (hb : b < img.rows) (ha0 : 0 ≤ a) (ha : a < img.cols) :
    img.at? b a = .ok (img.px b a) := by
  unfold Mat.at? Mat.px
  rw [if_pos ⟨hb0, hb, ha0, ha⟩]

namespace SquareFrameDiff

theorem colSum_bounds (img : Mat) (M : Int) (hM : img.boundedBy M) (a : Int)
    (ha0 : 0 ≤ a) (ha : a < img.cols) :
    ∀ (n : Nat) (b : Int), 0 ≤ b → b + n ≤ img.rows →
      0 ≤ ∑ k ∈ Finset.range n, img.px (b + k) a ∧
      ∑ k ∈ Finset.range n, img.px (b + k) a ≤ M * n := by
  intro n
  induction n with
  | zero => intro b _ _; simp
  | succ n ih =>
    intro b hb0 hb
    rw [Finset.sum_range_succ]
    push_cast at hb ⊢
    have h1 := ih b hb0 (by omega)
    have h2 := img.px_nonneg (b + n) a
    have h3 := img.px_le M hM (b + n) a (by omega) (by omega) ha0 ha
    have h4 : M * ((n : Int) + 1) = M * n + M := by ring
    omega

/-- The inner loop of `countPixels`, for reads inside the image: the accumulator grows by
the sum of the pixels of the column, wrapped to 32 bits. -/
theorem loopB_wrap (img : Mat) (a : Int) (ha0 : 0 ≤ a) (ha : a < img.cols) :
    ∀ (n : Nat) (b acc : Int), 0 ≤ b → b + n ≤ img.rows →
      countPixels.loopB img a n b (wrap32 acc) =
        .ok (wrap32 (acc + ∑ k ∈ Finset.range n, img.px (b + k) a)) := by
  intro n
  induction n with
  | zero => intro b acc _ _; simp [countPixels.loopB]
  | succ n ih =>
    intro b acc hb0 hb
    push_cast at hb
    unfold countPixels.loopB
    rw [img.at?_eq b a hb0 (by omega) ha0 ha]
    simp only
    rw [wrap32_add_wrap, ih (b + 1) _ (by omega) (by omega), Finset.sum_range_succ']
    simp only [Nat.cast_add, Nat.cast_one, Nat.cast_zero, add_zero]
    have hre : ∀ k : Nat, img.px (b + 1 + k) a = img.px (b + (k + 1)) a := by
      intro k; rw [add_assoc, add_comm 1 (k : Int)]
    simp only [hre]
    rw [add_assoc, add_comm (img.px b a)]

end SquareFrameDiff

namespace SquareFrameDiff

theorem rectSum_bounds (img : Mat) (M : Int) (hM : img.boundedBy M) (y : Int) (h : Nat)
    (hy0 : 0 ≤ y) (hy : y + h ≤ img.rows) :
    ∀ (n : Nat) (x : Int), 0 ≤ x → x + n ≤ img.cols →
      0 ≤ img.rectSum x y n h ∧ img.rectSum x y n h ≤ M * ((n : Int) * h) := by
  intro n
  induction n with
  | zero => intro x _ _; simp [Mat.rectSum]
  | succ n ih =>
    intro x hx0 hx
    unfold Mat.rectSum at ih ⊢
    rw [Finset.sum_range_succ]
    push_cast at hx ⊢
    have h1 := ih x hx0 (by omega)
    have h2 := colSum_bounds img M hM (x + n) (by omega) (by omega) h y hy0 hy
    have h4 : M * (((n : Int) + 1) * h) = M * ((n : Int) * h) + M * h := by ring
    omega

theorem cellSum_bounds (img : Mat) (M : Int) (hM : img.boundedBy M) (sq : Square)
    (hin : img.contains sq) :
    0 ≤ img.cellSum sq ∧
      img.cellSum sq ≤ M * ((sq.squareWidth.toNat : Int) * sq.squareHeight.toNat) := by
  obtain ⟨hx0, hx, hy0, hy⟩ := hin
  exact rectSum_bounds img M hM sq.yPos sq.squareHeight.toNat hy0 hy sq.squareWidth.toNat
    sq.xPos hx0 hx

theorem rectSum_succ_left (img : Mat) (x y : Int) (n h : Nat) :
    img.rectSum x y (n + 1) h =
      (∑ k ∈ Finset.range h, img.px (y + k) x) + img.rectSum (x + 1) y n h := by
  unfold Mat.rectSum
  rw [Finset.sum_range_succ']
  simp only [Nat.cast_add, Nat.cast_one, Nat.cast_zero, add_zero]
  have hre : ∀ j : Nat, x + ((j : Int) + 1) = x + 1 + j := by intro j; ring
  simp only [hre]
  rw [add_comm]

/-- The outer loop of `countPixels`, for reads inside the image. -/
theorem loopA_wrap (img : Mat) (sq : Square)
    (hy0 : 0 ≤ sq.yPos) (hy : sq.yPos + sq.squareHeight.toNat ≤ img.rows) :
    ∀ (n : Nat) (a acc : Int), 0 ≤ a → a + n ≤ img.cols →
      countPixels.loopA img sq n a (wrap32 acc) =
        .ok (wrap32 (acc + img.rectSum a sq.yPos n sq.squareHeight.toNat)) := by
  intro n
  induction n with
  | zero => intro a acc _ _; simp [countPixels.loopA, Mat.rectSum]
  | succ n ih =>
    intro a acc ha0 ha
    push_cast at ha
    unfold countPixels.loopA
    simp only [Square.getYPos, Square.getHeight, add_sub_cancel_left]
    rw [loopB_wrap img a ha0 (by omega) sq.squareHeight.toNat sq.yPos acc hy0 hy]
    simp only
    rw [ih (a + 1) _ (by omega) (by omega), rectSum_succ_left, add_assoc]

/-- The body of `countPixels` on a square whose rectangle lies inside the image: the new
score is the sum of the pixels of the rectangle, wrapped to 32 bits. -/
theorem body_wrap (img : Mat) (sq : Square) (hin : img.contains sq) :
    countPixels.body img sq = .ok (sq.setFeatureCount (wrap32 (img.cellSum sq))) := by
  obtain ⟨hx0, hx, hy0, hy⟩ := hin
  unfold countPixels.body
  simp only [Square.getXPos, Square.getWidth, Square.setFeatureCount, add_sub_cancel_left]
  have h := loopA_wrap img { sq with numFeatures := 0 } hy0 hy sq.squareWidth.toNat sq.xPos 0
    hx0 hx
  simp only [zero_add] at h
  have h0 : wrap32 0 = 0 := by decide
  rw [h0] at h
  rw [h]
  rfl

theorem countPixels_wrap (img : Mat) :
    ∀ squares : List Square, (∀ sq ∈ squares, img.contains sq) →
      countPixels img squares =
        .ok (squares.map (fun sq => sq.setFeatureCount (wrap32 (img.cellSum sq)))) := by
  intro squares
  induction squares with
  | nil => intro _; rfl
  | cons sq rest ih =>
    intro hall
    unfold countPixels
    rw [body_wrap img sq (hall sq (List.mem_cons_self _ _)),
      ih (fun s hs => hall s (List.mem_cons_of_mem _ hs))]
    rfl

end SquareFrameDiff

/-! ## Rectangle sums over the grid -/

theorem Mat.rectSum_add_rows (img : Mat) (x y : Int) (w h1 h2 : Nat) :
    img.rectSum x y w (h1 + h2) = img.rectSum x y w h1 + img.rectSum x (y + h1) w h2 := by
  unfold Mat.rectSum
  rw [← Finset.sum_add_distrib]
  refine Finset.sum_congr rfl (fun j _ => ?_)
  rw [Finset.sum_range_add]
  congr 1
  refine Finset.sum_congr rfl (fun k _ => ?_)
  push_cast
  rw [add_assoc]

theorem Mat.rectSum_add_cols (img : Mat) (x y : Int) (w1 w2 h : Nat) :
    img.rectSum x y (w1 + w2) h = img.rectSum x y w1 h + img.rectSum (x + w1) y w2 h := by
  unfold Mat.rectSum
  rw [Finset.sum_range_add]
  congr 1
  refine Finset.sum_congr rfl (fun j _ => ?_)
  push_cast
  rw [add_assoc]

theorem Mat.rectSum_full (img : Mat) :
    img.rectSum 0 0 img.cols.toNat img.rows.toNat = img.total := by
  unfold Mat.rectSum Mat.total Mat.px
  rw [Finset.sum_comm]
  simp

namespace SquareGenerator

theorem sum_cellSum_column (img : Mat) (i squareWidth squareHeight : Int)
    (hh : 0 ≤ squareHeight) (rows : Nat) :
    ((column i squareWidth squareHeight rows).map (fun sq => img.cellSum sq)).sum =
      img.rectSum i 0 squareWidth.toNat (rows * squareHeight.toNat) := by
  induction rows with
  | zero => simp [column, Mat.rectSum]
  | succ r ih =>
    rw [column, List.map_append, List.sum_append, ih, Nat.succ_mul, Mat.rectSum_add_rows]
    simp only [List.map_cons, List.map_nil, List.sum_cons, List.sum_nil, add_zero, Mat.cellSum,
      Square.new, zero_add]
    congr 2
    push_cast
    rw [Int.toNat_of_nonneg hh]

theorem sum_cellSum_grid (img : Mat) (squareWidth squareHeight : Int)
    (hw : 0 ≤ squareWidth) (hh : 0 ≤ squareHeight) (rows cols : Nat) :
    ((grid squareWidth squareHeight rows cols).map (fun sq => img.cellSum sq)).sum =
      img.rectSum 0 0 (cols * squareWidth.toNat) (rows * squareHeight.toNat) := by
  induction cols with
  | zero => simp [grid, Mat.rectSum]
  | succ c ih =>
    rw [grid, List.map_append, List.sum_append, ih, sum_cellSum_column img _ _ _ hh,
      Nat.succ_mul, Mat.rectSum_add_cols]
    congr 2
    push_cast
    rw [Int.toNat_of_nonneg hw, zero_add]

end SquareGenerator

/-! ## The scores that `countFeatures` leaves -/

theorem SquareFeatures.loopJ_eq (sq : Square) :
    ∀ (points : List Point2f) (count : Int),
      SquareFeatures.countFeatures.loopJ sq points count =
        count + (points.countP (fun p => SquareFeatures.countFeatures.hit sq p) : Nat) := by
  intro points
  induction points with
  | nil => intro count; simp [SquareFeatures.countFeatures.loopJ]
  | cons p rest ih =>
    intro count
    unfold SquareFeatures.countFeatures.loopJ
    by_cases hp : SquareFeatures.countFeatures.hit sq p = true
    · rw [if_pos hp, ih, List.countP_cons_of_pos _ _ hp]
      push_cast
      ring
    · rw [if_neg hp, ih, List.countP_cons_of_neg _ _ hp]

/-- What `countFeatures` computes: the layout stays, and the score of every cell becomes the
number of points in the window of 64 x 48 pixels at the corner of the cell. -/
theorem SquareFeatures.countFeatures_eq (points : List Point2f) (squares : List Square) :
    SquareFeatures.countFeatures points squares =
      squares.map (fun sq => sq.setFeatureCount (sq.pointsInWindow points : Nat)) := by
  unfold SquareFeatures.countFeatures
  refine List.map_congr_left (fun sq _ => ?_)
  unfold SquareFeatures.countFeatures.body
  rw [SquareFeatures.loopJ_eq, zero_add]
  rfl

/-! ## Updates depend on the layout only -/

theorem SquareFeatures.countFeatures_body_congr (points : List Point2f) (sq1 sq2 : Square)
    (h : sq1.layout = sq2.layout) :
    SquareFeatures.countFeatures.body points sq1 = SquareFeatures.countFeatures.body points sq2 := by
  obtain ⟨x1, y1, w1, h1, s1⟩ := sq1
  obtain ⟨x2, y2, w2, h2, s2⟩ := sq2
  simp only [Square.layout, Prod.mk.injEq] at h
  obtain ⟨rfl, rfl, rfl, rfl⟩ := h
  rfl

theorem SquareFeatures.countFeatures_body_layout (points : List Point2f) (sq : Square) :
    (SquareFeatures.countFeatures.body points sq).layout = sq.layout := rfl

theorem SquareFeatures.countFeatures_congr (points : List Point2f) :
    ∀ g1 g2 : List Square, g1.map Square.layout = g2.map Square.layout →
      SquareFeatures.countFeatures points g1 = SquareFeatures.countFeatures points g2 := by
  intro g1
  induction g1 with
  | nil =>
    intro g2 h
    cases g2 with
    | nil => rfl
    | cons _ _ => simp at h
  | cons sq1 rest1 ih =>
    intro g2 h
    cases g2 with
    | nil => simp at h
    | cons sq2 rest2 =>
      simp only [List.map_cons, List.cons.injEq] at h
      simp only [SquareFeatures.countFeatures, List.map_cons, List.cons.injEq]
      exact ⟨SquareFeatures.countFeatures_body_congr points sq1 sq2 h.1, ih rest2 h.2⟩

theorem SquareFeatures.countFeatures_layout (points : List Point2f) (g : List Square) :
    (SquareFeatures.countFeatures points g).map Square.layout = g.map Square.layout := by
  simp only [SquareFeatures.countFeatures, List.map_map]
  exact List.map_congr_left (fun sq _ => SquareFeatures.countFeatures_body_layout points sq)

theorem SquareFrameDiff.countPixels_body_congr (img : Mat) (sq1 sq2 : Square)
    (h : sq1.layout = sq2.layout) :
    SquareFrameDiff.countPixels.body img sq1 = SquareFrameDiff.countPixels.body img sq2 := by
  obtain ⟨x1, y1, w1, h1, s1⟩ := sq1
  obtain ⟨x2, y2, w2, h2, s2⟩ := sq2
  simp only [Square.layout, Prod.mk.injEq] at h
  obtain ⟨rfl, rfl, rfl, rfl⟩ := h
  rfl

theorem SquareFrameDiff.countPixels_body_layout (img : Mat) (sq sq1 : Square)
    (h : SquareFrameDiff.countPixels.body img sq = .ok sq1) : sq1.layout = sq.layout := by
  unfold SquareFrameDiff.countPixels.body at h
  simp only at h
  split at h
  · cases h
  · cases h; rfl

theorem SquareFrameDiff.countPixels_congr (img : Mat) :
    ∀ g1 g2 : List Square, g1.map Square.layout = g2.map Square.layout →
      SquareFrameDiff.countPixels img g1 = SquareFrameDiff.countPixels img g2 := by
  intro g1
  induction g1 with
  | nil =>
    intro g2 h
    cases g2 with
    | nil => rfl
    | cons _ _ => simp at h
  | cons sq1 rest1 ih =>
    intro g2 h
    cases g2 with
    | nil => simp at h
    | cons sq2 rest2 =>
      simp only [List.map_cons, List.cons.injEq] at h
      unfold SquareFrameDiff.countPixels
      rw [SquareFrameDiff.countPixels_body_congr img sq1 sq2 h.1, ih rest2 h.2]

theorem SquareFrameDiff.countPixels_layout (img : Mat) :
    ∀ g result : List Square, SquareFrameDiff.countPixels img g = .ok result →
      result.map Square.layout = g.map Square.layout := by
  intro g
  induction g with
  | nil =>
    intro result h
    simp only [SquareFrameDiff.countPixels, Except.ok.injEq] at h
    subst h; rfl
  | cons sq rest ih =>
    intro result h
    unfold SquareFrameDiff.countPixels at h
    cases hb : SquareFrameDiff.countPixels.body img sq with
    | error e => rw [hb] at h; cases h
    | ok sq1 =>
      cases hr : SquareFrameDiff.countPixels img rest with
      | error e => rw [hb, hr] at h; cases h
      | ok rest1 =>
        rw [hb, hr] at h
        simp only [Except.ok.injEq] at h
        subst h
        simp only [List.map_cons, List.cons.injEq]
        exact ⟨SquareFrameDiff.countPixels_body_layout img sq sq1 hb, ih rest1 hr⟩

/-! ## What `displaySquares` sends to the renderer -/

namespace SquareGenerator

theorem displaySquares_rects (key : Char) (squares : List Square) :
    (displaySquares key squares).filter GlCall.isRect =
      (squares.filter (fun sq => decide (sq.numFeatures > 0))).map
        (fun sq => GlCall.drawSolidRect sq.xPos sq.yPos (sq.xPos + SQUARE_WIDTH)
          (sq.yPos + SQUARE_HEIGHT)) := by
  induction squares with
  | nil => rfl
  | cons sq rest ih =>
    unfold displaySquares
    rw [List.filter_append, ih]
    by_cases hs : sq.numFeatures > 0
    · simp [displaySquares.body, Square.getFeatureCount, Square.getXPos, Square.getYPos,
        GlCall.isRect, hs, List.filter_cons]
    · simp [displaySquares.body, Square.getFeatureCount, GlCall.isRect, hs, List.filter_cons]

theorem displaySquares_colors (key : Char) (squares : List Square) :
    (displaySquares key squares).filter (fun call => !call.isRect) =
      squares.map (fun sq =>
        GlCall.color 0 1 0 (displaySquares.alpha sq.numFeatures (displaySquares.norm key))) := by
  induction squares with
  | nil => rfl
  | cons sq rest ih =>
    unfold displaySquares
    rw [List.filter_append, ih]
    by_cases hs : sq.numFeatures > 0
    · simp [displaySquares.body, Square.getFeatureCount, GlCall.isRect, hs, List.filter_cons]
    · simp [displaySquares.body, Square.getFeatureCount, GlCall.isRect, hs, List.filter_cons]

end SquareGenerator

/-! ## `countPixels` on the grid of `divideScreen` -/

namespace SquareGenerator

/-- When the cell sizes divide the sides of the image, every read of `countPixels` on the
grid of `divideScreen` is inside the image, every score is the 32-bit wrap of the sum of the
pixels of the cell, and these sums add up to the sum of all pixels. -/
theorem countPixels_grid (img : Mat) (n : Int)
    (hn : 1 ≤ n) (hnW : n ≤ img.cols) (hnH : n ≤ img.rows)
    (hdW : img.cols / n ∣ img.cols) (hdH : img.rows / n ∣ img.rows) :
    ∃ squares, DivideScreenReturns img.cols img.rows n [] squares ∧
      SquareFrameDiff.countPixels img squares =
        .ok (squares.map (fun sq => sq.setFeatureCount (wrap32 (img.cellSum sq)))) ∧
      (∀ sq ∈ squares, img.contains sq ∧
        (sq.squareWidth.toNat : Int) = img.cols / n ∧
        (sq.squareHeight.toNat : Int) = img.rows / n) ∧
      (squares.map (fun sq => img.cellSum sq)).sum = img.total := by
  have hn0 : n ≠ 0 := by omega
  obtain ⟨htW, hposW⟩ := tdiv_pos_iff img.cols n (by omega) hn
  obtain ⟨htH, hposH⟩ := tdiv_pos_iff img.rows n (by omega) hn
  have hw : 0 < img.cols / n := hposW.2 hnW
  have hh : 0 < img.rows / n := hposH.2 hnH
  have hcols := (loopCount_mul_eq_iff img.cols (img.cols / n) (by omega) hw).2 hdW
  have hrows := (loopCount_mul_eq_iff img.rows (img.rows / n) (by omega) hh).2 hdH
  have hinside := (grid_inside_iff img.cols img.rows (img.cols / n) (img.rows / n) (by omega)
    (by omega) hw hh).2 ⟨hdW, hdH⟩
  have hcontains : ∀ sq ∈ grid (img.cols / n) (img.rows / n)
      (loopCount img.rows (img.rows / n)) (loopCount img.cols (img.cols / n)),
      img.contains sq ∧ (sq.squareWidth.toNat : Int) = img.cols / n ∧
        (sq.squareHeight.toNat : Int) = img.rows / n := by
    intro sq hsq
    have hi := hinside sq hsq
    obtain ⟨c, r, _, _, rfl⟩ := (mem_grid _ _ _ _ _).1 hsq
    simp only [Square.inside, Square.new, decide_eq_true_eq] at hi
    simp only [Mat.contains, Square.new]
    omega
  refine ⟨_, (divideScreenReturns_iff img.cols img.rows n [] _ hn0 (by rw [htW]; exact hw)
    (by rw [htH]; exact hh)).2 rfl, ?_, ?_, ?_⟩
  · rw [List.nil_append, htW, htH]
    exact SquareFrameDiff.countPixels_wrap img _ (fun sq hsq => (hcontains sq hsq).1)
  · rw [List.nil_append, htW, htH]
    exact hcontains
  · rw [List.nil_append, htW, htH, sum_cellSum_grid img _ _ (le_of_lt hw) (le_of_lt hh),
      ← img.rectSum_full]
    have e1 : loopCount img.cols (img.cols / n) * (img.cols / n).toNat = img.cols.toNat := by
      have : ((loopCount img.cols (img.cols / n) * (img.cols / n).toNat : Nat) : Int) =
          img.cols := by
        push_cast; rw [Int.toNat_of_nonneg (le_of_lt hw)]; exact hcols
      omega
    have e2 : loopCount img.rows (img.rows / n) * (img.rows / n).toNat = img.rows.toNat := by
      have : ((loopCount img.rows (img.rows / n) * (img.rows / n).toNat : Nat) : Int) =
          img.rows := by
        push_cast; rw [Int.toNat_of_nonneg (le_of_lt hh)]; exact hrows
      omega
    rw [e1, e2]

theorem isBinary_boundedBy (img : Mat) (h : img.isBinary) : img.boundedBy 255 := by
  intro b hb a ha
  rcases h b hb a ha with h0 | h0 <;> rw [h0] <;> decide

theorem zeros_boundedBy (rows cols : Int) : (Mat.zeros rows cols).boundedBy 0 := by
  intro b _ a _
  simp [Mat.zeros]

theorem cellSum_zeros (rows cols : Int) (sq : Square) (hin : (Mat.zeros rows cols).contains sq) :
    (Mat.zeros rows cols).cellSum sq = 0 := by
  have h := SquareFrameDiff.cellSum_bounds (Mat.zeros rows cols) 0 (zeros_boundedBy rows cols)
    sq hin
  omega

end SquareGenerator

/-! ## The 32-bit accumulator of `countPixels` can wrap -/

theorem Mat.rectSum_const (rows cols : Int) (v : Fin 256) (x y : Int) (w h : Nat) :
    (Mat.const rows cols v).rectSum x y w h = (w : Int) * ((h : Int) * (v.val : Int)) := by
  simp [Mat.rectSum, Mat.px, Mat.const]

/-- On a window of 8421505 x 1 pixels `divideScreen(1)` builds one cell; on the image of that
size that is 255 everywhere the sum 2147483775 of its pixels exceeds the signed 32-bit
range, and the score that `countPixels` leaves is negative. -/
theorem SquareFrameDiff.countPixels_overflow_example :
    SquareGenerator.DivideScreenReturns 8421505 1 1 [] [Square.new 0 0 8421505 1] ∧
      SquareFrameDiff.countPixels (Mat.const 1 8421505 255) [Square.new 0 0 8421505 1] =
        .ok [(Square.new 0 0 8421505 1).setFeatureCount (-2147483521)] := by
  refine ⟨⟨2, rfl⟩, ?_⟩
  rw [SquareFrameDiff.countPixels_wrap _ _ (by
    intro sq hsq
    rw [List.mem_singleton] at hsq
    subst hsq
    simp [Mat.contains, Mat.const, Square.new])]
  simp only [List.map_cons, List.map_nil, Mat.cellSum, Mat.rectSum_const, Square.new]
  rfl

/-! ## `divideScreen` outside its working range -/

namespace SquareGenerator

/-- On a window with `W, H ≥ 1` and for `n ≥ 1`, `divideScreen(n)` returns exactly when
`n ≤ W` and `n ≤ H`. -/
theorem divideScreenReturns_iff_le (W H n : Int) (hW : 1 ≤ W) (hH : 1 ≤ H) (hn : 1 ≤ n)
    (pre : List Square) :
    (∃ squares, DivideScreenReturns W H n pre squares) ↔ (n ≤ W ∧ n ≤ H) := by
  obtain ⟨htW, hposW⟩ := tdiv_pos_iff W n hW hn
  obtain ⟨htH, hposH⟩ := tdiv_pos_iff H n hH hn
  constructor
  · rintro ⟨squares, fuel, hfuel⟩
    by_contra hcon
    rw [divideScreen_diverges W H n (by omega) (by omega) (by omega)
      (by rw [htW, htH]; omega) fuel pre] at hfuel
    cases hfuel
  · rintro ⟨hnW, hnH⟩
    exact ⟨_, (divideScreenReturns_iff W H n pre _ (by omega) (by rw [htW]; exact hposW.2 hnW)
      (by rw [htH]; exact hposH.2 hnH)).2 rfl⟩

end SquareGenerator

/-! ## The cells of the grid by index -/

namespace SquareGenerator

theorem column_getElem? (i squareWidth squareHeight : Int) (rows r : Nat) (hr : r < rows) :
    (column i squareWidth squareHeight rows)[r]? =
      some (Square.new i ((r : Int) * squareHeight) squareWidth squareHeight) := by
  induction rows with
  | zero => omega
  | succ m ih =>
    unfold column
    rcases Nat.lt_succ_iff_lt_or_eq.mp hr with h | h
    · rw [List.getElem?_append_left (by rw [column_length]; exact h)]
      exact ih h
    · subst h
      rw [List.getElem?_append_right (by rw [column_length])]
      simp [column_length]

theorem grid_getElem? (squareWidth squareHeight : Int) (rows cols c r : Nat)
    (hc : c < cols) (hr : r < rows) :
    (grid squareWidth squareHeight rows cols)[c * rows + r]? =
      some (Square.new ((c : Int) * squareWidth) ((r : Int) * squareHeight)
        squareWidth squareHeight) := by
  induction cols with
  | zero => omega
  | succ m ih =>
    unfold grid
    rcases Nat.lt_succ_iff_lt_or_eq.mp hc with h | h
    · have hlt : c * rows + r < m * rows := by
        have : (c + 1) * rows ≤ m * rows := Nat.mul_le_mul_right rows h
        rw [Nat.succ_mul] at this
        omega
      rw [List.getElem?_append_left (by rw [grid_length]; exact hlt)]
      exact ih h
    · subst h
      rw [List.getElem?_append_right (by rw [grid_length]; omega)]
      rw [grid_length, Nat.add_sub_cancel_left]
      exact column_getElem? _ _ _ rows r hr

/-- The cell at index `k` of the grid: column `k / rows`, row `k % rows`. -/
theorem grid_getElem?_index (squareWidth squareHeight : Int) (rows cols k : Nat)
    (hk : k < cols * rows) :
    (grid squareWidth squareHeight rows cols)[k]? =
      some (Square.new (((k / rows : Nat) : Int) * squareWidth)
        (((k % rows : Nat) : Int) * squareHeight) squareWidth squareHeight) := by
  have hrows : 0 < rows := by
    rcases Nat.eq_zero_or_pos rows with h | h
    · subst h; simp at hk
    · exact h
  have hc : k / rows < cols := by
    rw [Nat.div_lt_iff_lt_mul hrows]; exact hk
  have hr : k % rows < rows := Nat.mod_lt _ hrows
  have h := grid_getElem? squareWidth squareHeight rows cols (k / rows) (k % rows) hc hr
  have hk' : k / rows * rows + k % rows = k := by
    rw [Nat.mul_comm]; exact Nat.div_add_mod k rows
  rw [hk'] at h
  exact h

/-- The number of loop iterations is the ceiling of the quotient `limit / step`. -/
theorem loopCount_eq_ceil (limit step : Int) (hlimit : 1 ≤ limit) (hstep : 0 < step) :
    loopCount limit step = ⌈(limit : ℚ) / (step : ℚ)⌉.toNat := by
  have hpos := loopCount_pos limit step hlimit hstep
  have hge := loopCount_mul_ge limit step hstep
  have hlt := lt_of_lt_loopCount limit step hstep (loopCount limit step - 1) (by omega)
  have hcast : ((loopCount limit step - 1 : Nat) : Int) = (loopCount limit step : Int) - 1 := by
    omega
  rw [hcast] at hlt
  have hstepQ : (0 : ℚ) < (step : ℚ) := by exact_mod_cast hstep
  have hceil : ⌈(limit : ℚ) / (step : ℚ)⌉ = (loopCount limit step : Int) := by
    rw [Int.ceil_eq_iff]
    constructor
    · rw [lt_div_iff₀ hstepQ]
      exact_mod_cast hlt
    · rw [div_le_iff₀ hstepQ]
      exact_mod_cast hge
  rw [hceil]
  simp

end SquareGenerator

/-! ## When `countPixels` reads outside the image -/

theorem Mat.at?_error (img : Mat) (b a : Int) (e : Fault) (h : img.at? b a = .error e) :
    e = Fault.outOfBounds := by
  unfold Mat.at? at h
  split at h
  · cases h
  · cases h; rfl

theorem Mat.at?_outside (img : Mat) (b a : Int)
    (h : b < 0 ∨ img.rows ≤ b ∨ a < 0 ∨ img.cols ≤ a) :
    img.at? b a = .error Fault.outOfBounds := by
  unfold Mat.at?
  rw [if_neg (by omega)]

namespace SquareFrameDiff

theorem loopB_error (img : Mat) (a : Int) :
    ∀ (n : Nat) (b acc : Int) (e : Fault), countPixels.loopB img a n b acc = .error e →
      e = Fault.outOfBounds := by
  intro n
  induction n with
  | zero => intro b acc e h; simp [countPixels.loopB] at h
  | succ n ih =>
    intro b acc e h
    unfold countPixels.loopB at h
    cases hread : img.at? b a with
    | error e1 =>
      rw [hread] at h
      simp only [Except.error.injEq] at h
      subst h
      exact img.at?_error b a _ hread
    | ok v =>
      rw [hread] at h
      exact ih _ _ _ h

/-- A run of the inner loop that has a read outside the image ahead of it faults. -/
theorem loopB_fault (img : Mat) (a : Int) :
    ∀ (n : Nat) (b acc : Int), 1 ≤ n → 0 ≤ b →
      (img.rows < b + n ∨ a < 0 ∨ img.cols ≤ a) →
      countPixels.loopB img a n b acc = .error Fault.outOfBounds := by
  intro n
  induction n with
  | zero => intro b acc hn; omega
  | succ n ih =>
    intro b acc _ hb hout
    unfold countPixels.loopB
    by_cases hin : b < img.rows ∧ 0 ≤ a ∧ a < img.cols
    · rw [img.at?_eq b a hb hin.1 hin.2.1 hin.2.2]
      simp only
      push_cast at hout
      exact ih (b + 1) _ (by omega) (by omega) (by omega)
    · rw [img.at?_outside b a (by omega)]

theorem loopA_error (img : Mat) (sq : Square) :
    ∀ (n : Nat) (a acc : Int) (e : Fault), countPixels.loopA img sq n a acc = .error e →
      e = Fault.outOfBounds := by
  intro n
  induction n with
  | zero => intro a acc e h; simp [countPixels.loopA] at h
  | succ n ih =>
    intro a acc e h
    unfold countPixels.loopA at h
    cases hcol : countPixels.loopB img a (sq.getYPos + sq.getHeight - sq.getYPos).toNat
        sq.getYPos acc with
    | error e1 =>
      rw [hcol] at h
      simp only [Except.error.injEq] at h
      subst h
      exact loopB_error img a _ _ _ _ hcol
    | ok acc1 =>
      rw [hcol] at h
      exact ih _ _ _ h

/-- A run of the outer loop over a rectangle of positive height that is not inside the image
faults. -/
theorem loopA_fault (img : Mat) (sq : Square) (hy0 : 0 ≤ sq.yPos)
    (hh : 1 ≤ sq.squareHeight.toNat) :
    ∀ (n : Nat) (a acc : Int), 1 ≤ n → 0 ≤ a →
      (img.rows < sq.yPos + sq.squareHeight.toNat ∨ img.cols < a + n) →
      countPixels.loopA img sq n a acc = .error Fault.outOfBounds := by
  intro n
  induction n with
  | zero => intro a acc hn; omega
  | succ n ih =>
    intro a acc _ ha hout
    unfold countPixels.loopA
    simp only [Square.getYPos, Square.getHeight, add_sub_cancel_left]
    by_cases hcolumn : img.rows < sq.yPos + sq.squareHeight.toNat ∨ img.cols ≤ a
    · rw [loopB_fault img a sq.squareHeight.toNat sq.yPos acc hh hy0 (by omega)]
    · cases hcol : countPixels.loopB img a sq.squareHeight.toNat sq.yPos acc with
      | error e => rw [loopB_error img a _ _ _ _ hcol]
      | ok acc1 =>
        simp only
        push_cast at hout
        exact ih (a + 1) acc1 (by omega) (by omega) (by omega)

theorem body_error (img : Mat) (sq : Square) (e : Fault)
    (h : countPixels.body img sq = .error e) : e = Fault.outOfBounds := by
  unfold countPixels.body at h
  simp only at h
  split at h
  · rename_i e1 hrun
    simp only [Except.error.injEq] at h
    subst h
    exact loopA_error img _ _ _ _ _ hrun
  · cases h

/-- The body of `countPixels` faults on a square of positive size that starts at
non-negative coordinates and reaches beyond the image. -/
theorem body_fault (img : Mat) (sq : Square) (hx0 : 0 ≤ sq.xPos) (hy0 : 0 ≤ sq.yPos)
    (hw : 0 < sq.squareWidth) (hh : 0 < sq.squareHeight)
    (hout : img.cols < sq.xPos + sq.squareWidth ∨ img.rows < sq.yPos + sq.squareHeight) :
    countPixels.body img sq = .error Fault.outOfBounds := by
  unfold countPixels.body
  simp only [Square.getXPos, Square.getWidth, Square.setFeatureCount, add_sub_cancel_left]
  rw [loopA_fault img { sq with numFeatures := 0 } hy0 (by simp only; omega) sq.squareWidth.toNat
    sq.xPos 0 (by omega) hx0 (by simp only; omega)]

theorem countPixels_error (img : Mat) :
    ∀ (squares : List Square) (e : Fault), countPixels img squares = .error e →
      e = Fault.outOfBounds := by
  intro squares
  induction squares with
  | nil => intro e h; simp [countPixels] at h
  | cons sq rest ih =>
    intro e h
    unfold countPixels at h
    cases hb : countPixels.body img sq with
    | error e1 =>
      rw [hb] at h
      simp only [Except.error.injEq] at h
      subst h
      exact body_error img sq _ hb
    | ok sq1 =>
      cases hr : countPixels img rest with
      | error e1 =>
        rw [hb, hr] at h
        simp only [Except.error.injEq] at h
        subst h
        exact ih _ hr
      | ok rest1 => rw [hb, hr] at h; cases h

/-- `countPixels` faults as soon as the body faults on one square of the vector. -/
theorem countPixels_fault (img : Mat) :
    ∀ (squares : List Square) (sq : Square), sq ∈ squares →
      countPixels.body img sq = .error Fault.outOfBounds →
      countPixels img squares = .error Fault.outOfBounds := by
  intro squares
  induction squares with
  | nil => intro sq hsq; simp at hsq
  | cons sq0 rest ih =>
    intro sq hsq hfault
    have hall : ∀ e, countPixels img (sq0 :: rest) = .error e → e = Fault.outOfBounds :=
      countPixels_error img (sq0 :: rest)
    cases hrun : countPixels img (sq0 :: rest) with
    | error e => rw [hall e hrun]
    | ok result =>
      exfalso
      unfold countPixels at hrun
      cases hb : countPixels.body img sq0 with
      | error e1 => rw [hb] at hrun; cases hrun
      | ok sq1 =>
        cases hr : countPixels img rest with
        | error e1 => rw [hb, hr] at hrun; cases hrun
        | ok rest1 =>
          rcases List.mem_cons.1 hsq with h | h
          · subst h; rw [hb] at hfault; cases hfault
          · rw [ih sq h hfault] at hr; cases hr

end SquareFrameDiff

namespace SquareGenerator

/-- On the grid of `divideScreen`, `countPixels` stays inside an image of the size of the
window exactly when the cell sizes divide the sides. -/
theorem countPixels_grid_ok_iff (img : Mat) (n : Int)
    (hn : 1 ≤ n) (hnW : n ≤ img.cols) (hnH : n ≤ img.rows) :
    (∃ squares result, DivideScreenReturns img.cols img.rows n [] squares ∧
        SquareFrameDiff.countPixels img squares = .ok result) ↔
      (img.cols / n ∣ img.cols ∧ img.rows / n ∣ img.rows) := by
  obtain ⟨htW, hposW⟩ := tdiv_pos_iff img.cols n (by omega) hn
  obtain ⟨htH, hposH⟩ := tdiv_pos_iff img.rows n (by omega) hn
  have hw : 0 < img.cols / n := hposW.2 hnW
  have hh : 0 < img.rows / n := hposH.2 hnH
  constructor
  · rintro ⟨squares, result, hret, hrun⟩
    have hgrid := (divideScreenReturns_iff img.cols img.rows n [] squares (by omega)
      (by rw [htW]; exact hw) (by rw [htH]; exact hh)).1 hret
    rw [List.nil_append, htW, htH] at hgrid
    rw [← grid_inside_iff img.cols img.rows (img.cols / n) (img.rows / n) (by omega) (by omega)
      hw hh]
    intro sq hsq
    by_contra hout
    have hmem : sq ∈ squares := by rw [hgrid]; exact hsq
    obtain ⟨c, r, _, _, rfl⟩ := (mem_grid _ _ _ _ _).1 hsq
    simp only [Square.inside, Square.new, decide_eq_true_eq] at hout
    have hc : 0 ≤ (c : Int) * (img.cols / n) := mul_nonneg (by omega) (le_of_lt hw)
    have hr : 0 ≤ (r : Int) * (img.rows / n) := mul_nonneg (by omega) (le_of_lt hh)
    have hfault := SquareFrameDiff.body_fault img
      (Square.new ((c : Int) * (img.cols / n)) ((r : Int) * (img.rows / n)) (img.cols / n)
        (img.rows / n)) hc hr hw hh (by simp only [Square.new]; omega)
    rw [SquareFrameDiff.countPixels_fault img squares _ hmem hfault] at hrun
    cases hrun
  · rintro ⟨hdW, hdH⟩
    obtain ⟨squares, hret, hrun, _, _⟩ := countPixels_grid img n hn hnW hnH hdW hdH
    exact ⟨squares, _, hret, hrun⟩

end SquareGenerator

/-! ## Scores of `countFeatures` and of `countPixels` on binary images -/

theorem Mat.boundedBy_255 (img : Mat) : img.boundedBy 255 := by
  intro b _ a _
  have h := (img.data b a).isLt
  omega

/-- On a binary image the sum of the pixels of a cell inside the image is 255 times the
number of its foreground pixels. -/
theorem Mat.cellSum_eq_foregroundCount (img : Mat) (sq : Square) (hbin : img.isBinary)
    (hin : img.contains sq) :
    img.cellSum sq = 255 * (img.foregroundCount sq : Int) := by
  obtain ⟨hx0, hx, hy0, hy⟩ := hin
  unfold Mat.cellSum Mat.rectSum Mat.foregroundCount
  push_cast
  rw [Finset.mul_sum]
  refine Finset.sum_congr rfl (fun j hj => ?_)
  rw [Finset.mul_sum]
  refine Finset.sum_congr rfl (fun k hk => ?_)
  rw [Finset.mem_range] at hj hk
  have hb := hbin (sq.yPos + k).toNat (by omega) (sq.xPos + j).toNat (by omega)
  unfold Mat.px
  rcases hb with h0 | h0 <;> rw [h0] <;> simp

theorem Mat.foregroundCount_const (rows cols : Int) (sq : Square) :
    (Mat.const rows cols 255).foregroundCount sq =
      sq.squareWidth.toNat * sq.squareHeight.toNat := by
  have h255 : (((255 : Fin 256).val : Nat) : Int) = 255 := by decide
  simp [Mat.foregroundCount, Mat.px, Mat.const, h255]

theorem SquareFeatures.countFeatures_score_bounds (points : List Point2f)
    (squares : List Square) :
    ∀ sq ∈ SquareFeatures.countFeatures points squares,
      0 ≤ sq.numFeatures ∧ sq.numFeatures ≤ (points.length : Int) := by
  intro sq hsq
  rw [SquareFeatures.countFeatures_eq] at hsq
  obtain ⟨sq0, _, rfl⟩ := List.mem_map.1 hsq
  simp only [Square.setFeatureCount, Square.pointsInWindow]
  have h := List.countP_le_length (fun p => SquareFeatures.countFeatures.hit sq0 p) (l := points)
  omega

/-- The squares that `divideScreen` appends have score 0. -/
theorem SquareGenerator.grid_scores_zero (squareWidth squareHeight : Int) (rows cols : Nat) :
    ∀ sq ∈ SquareGenerator.grid squareWidth squareHeight rows cols, sq.numFeatures = 0 := by
  intro sq hsq
  obtain ⟨c, r, _, _, rfl⟩ := (SquareGenerator.mem_grid _ _ _ _ _).1 hsq
  rfl

/-! ## The application without frames -/

namespace SquareGenerator

theorem loopJ_scores_zero (windowHeight i squareWidth squareHeight : Int) :
    ∀ (fuel : Nat) (j : Int) (squares result : List Square),
      divideScreen.loopJ windowHeight i squareWidth squareHeight fuel j squares = .ok result →
      (∀ sq ∈ squares, sq.numFeatures = 0) → ∀ sq ∈ result, sq.numFeatures = 0 := by
  intro fuel
  induction fuel with
  | zero => intro j squares result h; simp [divideScreen.loopJ] at h
  | succ f ih =>
    intro j squares result h hzero
    unfold divideScreen.loopJ at h
    by_cases hj : j < windowHeight
    · rw [if_pos hj] at h
      refine ih _ _ _ h (fun sq hsq => ?_)
      rcases List.mem_append.1 hsq with h1 | h1
      · exact hzero sq h1
      · rw [List.mem_singleton] at h1; subst h1; rfl
    · rw [if_neg hj] at h
      cases h
      exact hzero

theorem loopI_scores_zero (windowWidth windowHeight squareWidth squareHeight : Int)
    (fuelJ : Nat) :
    ∀ (fuel : Nat) (i : Int) (squares result : List Square),
      divideScreen.loopI windowWidth windowHeight squareWidth squareHeight fuelJ fuel i squares =
        .ok result →
      (∀ sq ∈ squares, sq.numFeatures = 0) → ∀ sq ∈ result, sq.numFeatures = 0 := by
  intro fuel
  induction fuel with
  | zero => intro i squares result h; simp [divideScreen.loopI] at h
  | succ f ih =>
    intro i squares result h hzero
    unfold divideScreen.loopI at h
    by_cases hi : i < windowWidth
    · rw [if_pos hi] at h
      cases hrun : divideScreen.loopJ windowHeight i squareWidth squareHeight fuelJ 0 squares with
      | error e => rw [hrun] at h; cases h
      | ok squares1 =>
        rw [hrun] at h
        exact ih _ _ _ h (loopJ_scores_zero _ _ _ _ _ _ _ _ hrun hzero)
    · rw [if_neg hi] at h
      cases h
      exact hzero

/-- Every square of a vector that `divideScreen` built from the empty vector has score 0. -/
theorem divideScreen_scores_zero (fuel : Nat) (windowWidth windowHeight numSquares : Int)
    (result : List Square)
    (h : divideScreen fuel windowWidth windowHeight numSquares [] = .ok result) :
    ∀ sq ∈ result, sq.numFeatures = 0 := by
  unfold divideScreen at h
  by_cases hn : numSquares = 0
  · rw [if_pos hn] at h; cases h
  · rw [if_neg hn] at h
    exact loopI_scores_zero _ _ _ _ _ _ _ _ _ h (fun sq hsq => by simp at hsq)

theorem displaySquares_no_rect (key : Char) (squares : List Square)
    (hzero : ∀ sq ∈ squares, sq.numFeatures = 0) :
    ∀ call ∈ displaySquares key squares, call.isRect = false := by
  have h : (displaySquares key squares).filter GlCall.isRect = [] := by
    rw [displaySquares_rects, List.map_eq_nil_iff, List.filter_eq_nil_iff]
    intro sq hsq
    rw [hzero sq hsq]
    decide
  intro call hcall
  have := (List.filter_eq_nil_iff.1 h) call hcall
  simpa using this

end SquareGenerator

namespace OpticalFlowExampleApp

theorem setup_idle (fuel : Nat) (windowWidth windowHeight : Int) (keyPressed : Char)
    (app : OpticalFlowExampleApp) (h : setup fuel windowWidth windowHeight keyPressed = .ok app) :
    Idle app := by
  unfold setup at h
  cases hrun : SquareGenerator.divideScreen fuel windowWidth windowHeight NUMBER_OF_SQUARES [] with
  | error e => rw [hrun] at h; cases h
  | ok squares =>
    rw [hrun] at h
    simp only [Except.ok.injEq] at h
    subst h
    have hz := SquareGenerator.divideScreen_scores_zero _ _ _ _ _ hrun
    exact ⟨rfl, hz, hz⟩

/-- The guards of `opticalFlow`: without a camera surface or without a background frame an
update tick makes no call and leaves the state as it was after taking in the new frame. -/
theorem opticalFlow_guarded (cv : Vision) (elapsedFrames : Nat) (app : OpticalFlowExampleApp)
    (h : app.mSurface = none ∨ app.mBGFrame = none) :
    opticalFlow cv elapsedFrames app = { calls := [], drawn := [], state := .ok app } := by
  unfold opticalFlow
  by_cases hs : app.mSurface.isNone = true
  · rw [if_pos hs]
  · rw [if_neg hs]
    have hbg : app.mBGFrame = none := by
      rcases h with h | h
      · rw [h] at hs; simp at hs
      · exact h
    rw [if_pos (by rw [hbg]; rfl)]

theorem step_quiet (cv : Vision) (app : OpticalFlowExampleApp) (hidle : Idle app) (e : Event)
    (hq : e.quiet = true) :
    ∃ app1, (step cv app e).state = .ok app1 ∧ (step cv app e).calls = [] ∧
      (∀ d ∈ (step cv app e).drawn, d.isRect = false) ∧
      app1.squareFeat = app.squareFeat ∧ app1.squareDiff = app.squareDiff ∧ Idle app1 := by
  obtain ⟨hsurf, hfeat, hdiff⟩ := hidle
  cases e with
  | update newFrame elapsedFrames =>
    cases newFrame with
    | some frame => simp [Event.quiet] at hq
    | none =>
      refine ⟨app, ?_, ?_, ?_, rfl, rfl, ⟨hsurf, hfeat, hdiff⟩⟩ <;>
        simp [step, update, opticalFlow_guarded cv elapsedFrames app (Or.inl hsurf)]
  | draw =>
    refine ⟨app, rfl, rfl, ?_, rfl, rfl, ⟨hsurf, hfeat, hdiff⟩⟩
    intro d hd
    simp only [step, draw, List.mem_cons] at hd
    rcases hd with rfl | hd
    · rfl
    · split at hd
      · obtain ⟨call, hcall, rfl⟩ := List.mem_map.1 hd
        exact SquareGenerator.displaySquares_no_rect _ _ hfeat call hcall
      · split at hd
        · obtain ⟨call, hcall, rfl⟩ := List.mem_map.1 hd
          exact SquareGenerator.displaySquares_no_rect _ _ hdiff call hcall
        · simp at hd
  | keyDown c =>
    simp only [Event.quiet, Bool.or_eq_true, decide_eq_true_eq] at hq
    rcases hq with rfl | rfl
    · refine ⟨{ app with keyPressed := 'f' }, rfl, rfl, ?_, rfl, rfl, ⟨hsurf, hfeat, hdiff⟩⟩
      intro d hd
      have hd1 : d ∈ ([] : List DrawCall) := hd
      cases hd1
    · refine ⟨{ app with keyPressed := 'd' }, rfl, rfl, ?_, rfl, rfl, ⟨hsurf, hfeat, hdiff⟩⟩
      intro d hd
      have hd1 : d ∈ ([] : List DrawCall) := hd
      cases hd1
  | mouseDown =>
    refine ⟨app, rfl, rfl, ?_, rfl, rfl, ⟨hsurf, hfeat, hdiff⟩⟩
    intro d hd
    have hd1 : d ∈ ([] : List DrawCall) := hd
    cases hd1

theorem run_quiet (cv : Vision) :
    ∀ (events : List Event) (app : OpticalFlowExampleApp), Idle app →
      (∀ e ∈ events, e.quiet = true) →
      ∃ app1, (run cv app events).state = .ok app1 ∧ (run cv app events).calls = [] ∧
        (∀ d ∈ (run cv app events).drawn, d.isRect = false) ∧
        app1.squareFeat = app.squareFeat ∧ app1.squareDiff = app.squareDiff ∧ Idle app1 := by
  intro events
  induction events with
  | nil =>
    intro app hidle _
    refine ⟨app, rfl, rfl, ?_, rfl, rfl, hidle⟩
    intro d hd
    have hd1 : d ∈ ([] : List DrawCall) := hd
    cases hd1
  | cons e rest ih =>
    intro app hidle hq
    obtain ⟨app1, hstate, hcalls, hdrawn, hf, hd, hidle1⟩ :=
      step_quiet cv app hidle e (hq e (List.mem_cons_self _ _))
    obtain ⟨app2, hstate2, hcalls2, hdrawn2, hf2, hd2, hidle2⟩ :=
      ih app1 hidle1 (fun e1 he1 => hq e1 (List.mem_cons_of_mem _ he1))
    have hstep : step cv app e =
        { calls := [], drawn := (step cv app e).drawn, state := .ok app1 } := by
      rw [← hstate, ← hcalls]
    unfold run
    rw [hstep]
    refine ⟨app2, hstate2, by simpa using hcalls2, ?_, hf2.trans hf, hd2.trans hd, hidle2⟩
    intro d hmem
    simp only [List.mem_append] at hmem
    rcases hmem with h | h
    · exact hdrawn d h
    · exact hdrawn2 d h

end OpticalFlowExampleApp

/-! ## `divideScreen` with a step that is not positive -/

namespace SquareGenerator

end SquareGenerator

/-! ## The grid: cell count and tiling -/

open SquareGenerator SquareFeatures SquareFrameDiff

/-- C1 as stated fails: on a window of 3 x 3 pixels `divideScreen(2)` uses cells of
3 / 2 = 1 pixel, so it returns 3 * 3 = 9 cells and never a grid of 2 * 2 = 4 cells. -/
theorem divideScreen_cell_count_counterexample :
    (∃ squares, DivideScreenReturns 3 3 2 [] squares ∧ squares.length = 9) ∧
      ¬ ∃ squares, DivideScreenReturns 3 3 2 [] squares ∧ (squares.length : Int) = 2 * 2 := by
  have hrun : DivideScreenReturns 3 3 2 [] (grid 1 1 3 3) := ⟨4, rfl⟩
  refine ⟨⟨_, hrun, rfl⟩, ?_⟩
  rintro ⟨squares, hret, hlen⟩
  rw [divideScreenReturns_unique _ _ _ _ _ _ hret hrun] at hlen
  revert hlen
  decide

/-- C1 (amended): for every window of `W x H` pixels with `W, H ≥ 1` and every division count
`n ≥ 1`, `divideScreen(n)` on an empty vector returns exactly `n * n` cells if and only if
`n` divides both `W` and `H`. -/
theorem divideScreen_cell_count (W H n : Int) (hW : 1 ≤ W) (hH : 1 ≤ H) (hn : 1 ≤ n) :
    (∃ squares, DivideScreenReturns W H n [] squares ∧ (squares.length : Int) = n * n) ↔
      (n ∣ W ∧ n ∣ H) := by
  have hn0 : n ≠ 0 := by omega
  obtain ⟨htW, hposW⟩ := tdiv_pos_iff W n hW hn
  obtain ⟨htH, hposH⟩ := tdiv_pos_iff H n hH hn
  constructor
  · rintro ⟨squares, hret, hlen⟩
    have hsize : 0 < Int.tdiv W n ∧ 0 < Int.tdiv H n := by
      by_contra hcon
      obtain ⟨fuel, hfuel⟩ := hret
      rw [divideScreen_diverges W H n (by omega) (by omega) hn0 (by omega) fuel []] at hfuel
      cases hfuel
    have hgrid := (divideScreenReturns_iff W H n [] squares hn0 hsize.1 hsize.2).1 hret
    rw [htW, htH] at hsize hgrid
    have hnW := hposW.1 hsize.1
    have hnH := hposH.1 hsize.2
    rw [hgrid, List.nil_append, grid_length] at hlen
    push_cast at hlen
    have hc := le_loopCount_div W n hn hnW
    have hr := le_loopCount_div H n hn hnH
    have hceq : (loopCount W (W / n) : Int) = n := by
      by_contra hne
      have h1 : (n + 1) * (loopCount H (H / n) : Int) ≤
          (loopCount W (W / n) : Int) * (loopCount H (H / n) : Int) :=
        mul_le_mul_of_nonneg_right (by omega) (by omega)
      have h2 : (n + 1) * n ≤ (n + 1) * (loopCount H (H / n) : Int) :=
        mul_le_mul_of_nonneg_left hr (by omega)
      have h3 : (n + 1) * n = n * n + n := by ring
      omega
    have hreq : (loopCount H (H / n) : Int) = n := by
      rw [hceq] at hlen
      have h1 : n * ((loopCount H (H / n) : Int) - n) = 0 := by
        rw [mul_sub, hlen, sub_self]
      rcases mul_eq_zero.1 h1 with h | h <;> omega
    exact ⟨(loopCount_div_eq_iff W n hn hnW).1 hceq, (loopCount_div_eq_iff H n hn hnH).1 hreq⟩
  · rintro ⟨hdW, hdH⟩
    have hnW := (dvd_cell_size W n hW hdW).1
    have hnH := (dvd_cell_size H n hH hdH).1
    have hw : 0 < Int.tdiv W n := by rw [htW]; exact hposW.2 hnW
    have hh : 0 < Int.tdiv H n := by rw [htH]; exact hposH.2 hnH
    refine ⟨_, (divideScreenReturns_iff W H n [] _ hn0 hw hh).2 rfl, ?_⟩
    rw [List.nil_append, grid_length, htW, htH]
    push_cast
    rw [(loopCount_div_eq_iff W n hn hnW).2 hdW, (loopCount_div_eq_iff H n hn hnH).2 hdH]

/-- Witness for `divideScreen_cell_count`: a window of 4 x 2 pixels divided by 2. -/
theorem divideScreen_cell_count_witness :
    ((1 : Int) ≤ 4 ∧ (1 : Int) ≤ 2) ∧
      ((∃ squares, DivideScreenReturns 4 2 2 [] squares ∧ (squares.length : Int) = 2 * 2) ↔
        ((2 : Int) ∣ 4 ∧ (2 : Int) ∣ 2)) :=
  ⟨by decide, divideScreen_cell_count 4 2 2 (by decide) (by decide) (by decide)⟩

/-- C2 as stated fails: on a window of 5 x 5 pixels `divideScreen(2)` uses cells of
2 x 2 pixels and adds a third column and row instead of widening the second one: it returns
9 cells, and the cell at `(4, 4)` reaches to pixel 6, outside the canvas. -/
theorem divideScreen_tiles_counterexample :
    ∃ squares, DivideScreenReturns 5 5 2 [] squares ∧ squares.length = 9 ∧
      ∃ sq ∈ squares, sq = Square.new 4 4 2 2 ∧ sq.inside 5 5 = false :=
  ⟨grid 2 2 3 3, ⟨4, rfl⟩, rfl, Square.new 4 4 2 2, by decide, rfl, by decide⟩

/-- C2 (amended): for every window of `W x H` pixels and every division count `n` with
`1 ≤ n ≤ W` and `n ≤ H`, `divideScreen(n)` returns a grid in which every pixel of the canvas
lies in the half-open rectangle of exactly one cell; every cell's rectangle lies inside the
canvas if and only if the cell size `W / n` divides `W` and `H / n` divides `H`. -/
theorem divideScreen_tiles (W H n : Int) (hn : 1 ≤ n) (hnW : n ≤ W) (hnH : n ≤ H) :
    ∃ squares, DivideScreenReturns W H n [] squares ∧
      (∀ px py : Int, 0 ≤ px → px < W → 0 ≤ py → py < H →
        squares.countP (fun sq => sq.covers px py) = 1) ∧
      ((∀ sq ∈ squares, sq.inside W H = true) ↔ (W / n ∣ W ∧ H / n ∣ H)) := by
  have hn0 : n ≠ 0 := by omega
  obtain ⟨htW, hposW⟩ := tdiv_pos_iff W n (by omega) hn
  obtain ⟨htH, hposH⟩ := tdiv_pos_iff H n (by omega) hn
  have hw : 0 < W / n := hposW.2 hnW
  have hh : 0 < H / n := hposH.2 hnH
  refine ⟨_, (divideScreenReturns_iff W H n [] _ hn0 (by rw [htW]; exact hw)
    (by rw [htH]; exact hh)).2 rfl, ?_, ?_⟩
  · intro px py hpx0 hpxW hpy0 hpyH
    rw [List.nil_append, htW, htH, countP_covers_grid _ _ hw hh]
    have hcge := loopCount_mul_ge W (W / n) hw
    have hrge := loopCount_mul_ge H (H / n) hh
    rw [if_pos (by omega)]
  · rw [List.nil_append, htW, htH]
    exact grid_inside_iff W H (W / n) (H / n) (by omega) (by omega) hw hh

/-- Witness for `divideScreen_tiles`: a window of 5 x 3 pixels divided by 2. -/
theorem divideScreen_tiles_witness :
    ((1 : Int) ≤ 2 ∧ (2 : Int) ≤ 5 ∧ (2 : Int) ≤ 3) ∧
      ∃ squares, DivideScreenReturns 5 3 2 [] squares ∧
        (∀ px py : Int, 0 ≤ px → px < 5 → 0 ≤ py → py < 3 →
          squares.countP (fun sq => sq.covers px py) = 1) ∧
        ((∀ sq ∈ squares, sq.inside 5 3 = true) ↔ ((5 : Int) / 2 ∣ 5 ∧ (3 : Int) / 2 ∣ 3)) :=
  ⟨by decide, divideScreen_tiles 5 3 2 (by decide) (by decide) (by decide)⟩

/-! ## `countFeatures` -/

/-- C3, evaluation at the failing input: on the grid that `divideScreen(10)` builds on a window
of 100 x 100 pixels (100 cells of 10 x 10), `countFeatures` on the single point `(15, 15)` leaves
score 1 in the four cells at `(0,0)`, `(0,10)`, `(10,0)` and `(10,10)`, whereas only the cell at
`(10,10)` has the point in its own stored rectangle. -/
theorem countFeatures_ignores_stored_size :
    ∃ squares, DivideScreenReturns 100 100 NUMBER_OF_SQUARES [] squares ∧
      (∀ sq ∈ squares, sq.squareWidth = 10 ∧ sq.squareHeight = 10) ∧
      ((countFeatures [⟨15, 15⟩] squares).filter (fun sq => decide (sq.numFeatures ≠ 0))).map
          (fun sq => (sq.xPos, sq.yPos, sq.numFeatures)) =
        [(0, 0, 1), (0, 10, 1), (10, 0, 1), (10, 10, 1)] ∧
      (squares.filter (fun sq => decide (sq.pointsInside [⟨15, 15⟩] ≠ 0))).map
          (fun sq => (sq.xPos, sq.yPos, sq.pointsInside [⟨15, 15⟩])) = [(10, 10, 1)] := by
  have hrun : divideScreen 11 100 100 NUMBER_OF_SQUARES [] = .ok (grid 10 10 10 10) :=
    divideScreen_eq_grid 11 100 100 NUMBER_OF_SQUARES [] (by decide) (by decide) (by decide)
      (by decide) (by decide)
  exact ⟨grid 10 10 10 10, ⟨11, hrun⟩, by decide, by decide, by decide⟩

/-- C4, evaluation at two failing inputs: on the 20 x 20 window divided by 2 the scores for
the single in-canvas point `(15, 15)` sum to 4, and on the 200 x 200 window divided by 2 the
scores for the single in-canvas point `(70, 70)` sum to 0; the claim asks for 1 both times. -/
theorem countFeatures_sum_mismatch :
    (∃ squares, DivideScreenReturns 20 20 2 [] squares ∧
      ((countFeatures [⟨15, 15⟩] squares).map Square.numFeatures).sum = 4) ∧
    (∃ squares, DivideScreenReturns 200 200 2 [] squares ∧
      ((countFeatures [⟨70, 70⟩] squares).map Square.numFeatures).sum = 0) :=
  ⟨⟨grid 10 10 2 2, ⟨3, rfl⟩, by decide⟩, ⟨grid 100 100 2 2, ⟨3, rfl⟩, by decide⟩⟩

/-- C5, evaluation at the failing input: on the 20 x 20 window divided by 2, the top-left
corner `(10, 10)` of the last cell is counted by all four cells, not only by its own. -/
theorem countFeatures_corner_mismatch :
    ∃ squares, DivideScreenReturns 20 20 2 [] squares ∧
      Square.new 10 10 10 10 ∈ squares ∧
      (countFeatures [⟨10, 10⟩] squares).map
          (fun sq => (sq.xPos, sq.yPos, sq.numFeatures)) =
        [(0, 0, 1), (0, 10, 1), (10, 0, 1), (10, 10, 1)] :=
  ⟨grid 10 10 2 2, ⟨3, rfl⟩, by decide, by decide⟩

/-- C6: on a canvas of 640 x 480 pixels `divideScreen(10)` returns 100 cells, each 64 wide
and 48 high, and `countFeatures` on the points `(0,0), (63,47), (64,0)` leaves score 2 in the
cell at `(0, 0)`, score 1 in the cell at `(64, 0)` and score 0 in each of the other 98 cells. -/
theorem scenario_640_480 :
    ∃ squares, DivideScreenReturns 640 480 NUMBER_OF_SQUARES [] squares ∧
      squares.length = 100 ∧
      (∀ sq ∈ squares, sq.squareWidth = 64 ∧ sq.squareHeight = 48) ∧
      (countFeatures [⟨0, 0⟩, ⟨63, 47⟩, ⟨64, 0⟩] squares).length = 100 ∧
      (∀ sq ∈ countFeatures [⟨0, 0⟩, ⟨63, 47⟩, ⟨64, 0⟩] squares,
        sq.numFeatures =
          if sq.xPos = 0 ∧ sq.yPos = 0 then 2
          else if sq.xPos = 64 ∧ sq.yPos = 0 then 1
          else 0) ∧
      ((countFeatures [⟨0, 0⟩, ⟨63, 47⟩, ⟨64, 0⟩] squares).filter
          (fun sq => decide (sq.numFeatures ≠ 0))).map
          (fun sq => (sq.xPos, sq.yPos, sq.numFeatures)) = [(0, 0, 2), (64, 0, 1)] := by
  have hrun : divideScreen 11 640 480 NUMBER_OF_SQUARES [] = .ok (grid 64 48 10 10) :=
    divideScreen_eq_grid 11 640 480 NUMBER_OF_SQUARES [] (by decide) (by decide) (by decide)
      (by decide) (by decide)
  refine ⟨grid 64 48 10 10, ⟨11, hrun⟩, rfl, ?_, ?_, ?_, ?_⟩
  · decide
  · rfl
  · decide
  · decide

/-! ## `countPixels` -/

/-- C7 as stated fails: on a window of 5 x 2 pixels `divideScreen(2)` builds cells of 2 x 1
pixels in three columns, the last of which covers the columns 4 and 5; on the binary image
of 5 x 2 pixels that is 255 everywhere `countPixels` then reads column 5, outside the image,
and yields no scores. -/
theorem countPixels_sum_counterexample :
    (Mat.const 2 5 255).isBinary ∧
      ∃ squares, DivideScreenReturns 5 2 2 [] squares ∧
        Square.new 4 0 2 1 ∈ squares ∧
        SquareFrameDiff.countPixels (Mat.const 2 5 255) squares = .error Fault.outOfBounds :=
  ⟨by decide, grid 2 1 2 3, ⟨4, rfl⟩, by decide, rfl⟩

/-- C7 (amended): for every window of `W x H` pixels and every division count `n` with
`1 ≤ n ≤ W`, `n ≤ H` whose cell sizes `W / n` and `H / n` divide `W` and `H`, and every binary
image of `H` rows and `W` columns, provided a cell full of 255s fits a signed 32-bit integer
(`255 * (W / n) * (H / n) < 2^31`), `countPixels` succeeds on the grid built by `divideScreen(n)`
and the scores it leaves sum to the sum of all pixel values of the image. -/
theorem countPixels_sum (W H n : Int) (img : Mat) (hrows : img.rows = H) (hcols : img.cols = W)
    (hbin : img.isBinary) (hn : 1 ≤ n) (hnW : n ≤ W) (hnH : n ≤ H)
    (hdW : W / n ∣ W) (hdH : H / n ∣ H) (hlim : 255 * ((W / n) * (H / n)) < 2147483648) :
    ∃ squares result, DivideScreenReturns W H n [] squares ∧
      SquareFrameDiff.countPixels img squares = .ok result ∧
      (result.map Square.numFeatures).sum = img.total := by
  subst hrows hcols
  obtain ⟨squares, hret, hrun, hprops, hsum⟩ := countPixels_grid img n hn hnW hnH hdW hdH
  refine ⟨squares, _, hret, hrun, ?_⟩
  rw [List.map_map, ← hsum]
  refine congrArg List.sum (List.map_congr_left (fun sq hsq => ?_))
  obtain ⟨hin, hw, hh⟩ := hprops sq hsq
  have hb := SquareFrameDiff.cellSum_bounds img 255 (isBinary_boundedBy img hbin) sq hin
  rw [hw, hh] at hb
  exact wrap32_of_range _ hb.1 (by omega)

/-- Witness for `countPixels_sum`: the 4 x 2 window divided by 2 and the image that is 255
everywhere. -/
theorem countPixels_sum_witness :
    (Mat.const 2 4 255).isBinary ∧ (4 : Int) / 2 ∣ 4 ∧ (2 : Int) / 2 ∣ 2 ∧
      (255 * (((4 : Int) / 2) * ((2 : Int) / 2)) < 2147483648) ∧
      ∃ squares result, DivideScreenReturns 4 2 2 [] squares ∧
        SquareFrameDiff.countPixels (Mat.const 2 4 255) squares = .ok result ∧
        (result.map Square.numFeatures).sum = (Mat.const 2 4 255).total :=
  ⟨by decide, by decide, by decide, by decide,
    countPixels_sum 4 2 2 (Mat.const 2 4 255) rfl rfl (by decide)
      (by decide) (by decide) (by decide) (by decide) (by decide) (by decide)⟩

/-! ## Idempotence of the updates -/

/-- C8: the grids left by `countFeatures` and by `countPixels` depend on the layout of the
squares and on the input only, not on the scores before the call; in particular running
either update twice in a row on the same input leaves the same grid as running it once. -/
theorem update_ignores_old_scores (points : List Point2f) (img : Mat) (g1 g2 : List Square)
    (h : g1.map Square.layout = g2.map Square.layout) :
    SquareFeatures.countFeatures points g1 = SquareFeatures.countFeatures points g2 ∧
      SquareFrameDiff.countPixels img g1 = SquareFrameDiff.countPixels img g2 ∧
      SquareFeatures.countFeatures points (SquareFeatures.countFeatures points g1) =
        SquareFeatures.countFeatures points g1 ∧
      (SquareFrameDiff.countPixels img g1).bind (SquareFrameDiff.countPixels img) =
        SquareFrameDiff.countPixels img g1 := by
  refine ⟨SquareFeatures.countFeatures_congr points g1 g2 h,
    SquareFrameDiff.countPixels_congr img g1 g2 h,
    SquareFeatures.countFeatures_congr points _ _ (SquareFeatures.countFeatures_layout points g1),
    ?_⟩
  cases hrun : SquareFrameDiff.countPixels img g1 with
  | error e => rfl
  | ok result =>
    simp only [Except.bind]
    rw [SquareFrameDiff.countPixels_congr img result g1
      (SquareFrameDiff.countPixels_layout img g1 result hrun), hrun]

/-- Witness for `update_ignores_old_scores`: two one-cell grids that differ in the score only,
on which both updates return. -/
theorem update_ignores_old_scores_witness :
    [Square.new 0 0 2 2].map Square.layout =
        [(Square.new 0 0 2 2).setFeatureCount 7].map Square.layout ∧
      SquareFrameDiff.countPixels (Mat.const 2 2 255) [Square.new 0 0 2 2] =
        .ok [(Square.new 0 0 2 2).setFeatureCount 1020] ∧
      (SquareFeatures.countFeatures [⟨1, 1⟩] [Square.new 0 0 2 2] =
          SquareFeatures.countFeatures [⟨1, 1⟩] [(Square.new 0 0 2 2).setFeatureCount 7] ∧
        SquareFrameDiff.countPixels (Mat.const 2 2 255) [Square.new 0 0 2 2] =
          SquareFrameDiff.countPixels (Mat.const 2 2 255)
            [(Square.new 0 0 2 2).setFeatureCount 7] ∧
        SquareFeatures.countFeatures [⟨1, 1⟩]
            (SquareFeatures.countFeatures [⟨1, 1⟩] [Square.new 0 0 2 2]) =
          SquareFeatures.countFeatures [⟨1, 1⟩] [Square.new 0 0 2 2] ∧
        (SquareFrameDiff.countPixels (Mat.const 2 2 255) [Square.new 0 0 2 2]).bind
            (SquareFrameDiff.countPixels (Mat.const 2 2 255)) =
          SquareFrameDiff.countPixels (Mat.const 2 2 255) [Square.new 0 0 2 2]) :=
  ⟨rfl, rfl, update_ignores_old_scores [⟨1, 1⟩] (Mat.const 2 2 255) [Square.new 0 0 2 2]
    [(Square.new 0 0 2 2).setFeatureCount 7] rfl⟩

/-! ## `displaySquares` -/

/-- C9 as stated fails: with eleven feature points in the first cell of the grid that
`divideScreen(10)` builds on the 640 x 480 window, `countFeatures` leaves score 11 there and the
first call that `displaySquares('f')` makes hands the renderer the opacity 11 / 10, which is
greater than 1: nothing clamps it. -/
theorem displaySquares_opacity_counterexample :
    ∃ squares, DivideScreenReturns 640 480 NUMBER_OF_SQUARES [] squares ∧
      (SquareFeatures.countFeatures (List.replicate 11 ⟨1, 1⟩) squares).head? =
        some ((Square.new 0 0 64 48).setFeatureCount 11) ∧
      (displaySquares 'f'
          (SquareFeatures.countFeatures (List.replicate 11 ⟨1, 1⟩) squares)).head? =
        some (GlCall.color 0 1 0 (some (11 / 10))) ∧
      (1 : ℚ) < 11 / 10 := by
  have hrun : divideScreen 11 640 480 NUMBER_OF_SQUARES [] = .ok (grid 64 48 10 10) :=
    divideScreen_eq_grid 11 640 480 NUMBER_OF_SQUARES [] (by decide) (by decide) (by decide)
      (by decide) (by decide)
  have hcons : SquareFeatures.countFeatures (List.replicate 11 ⟨1, 1⟩) (grid 64 48 10 10) =
      (Square.new 0 0 64 48).setFeatureCount 11 ::
        (SquareFeatures.countFeatures (List.replicate 11 ⟨1, 1⟩) (grid 64 48 10 10)).tail := by
    decide
  refine ⟨grid 64 48 10 10, ⟨11, hrun⟩, by decide, ?_, by norm_num⟩
  rw [hcons]
  simp [displaySquares, displaySquares.body, displaySquares.norm, displaySquares.alpha,
    Square.setFeatureCount, Square.new, Square.getFeatureCount]

/-- C9 (amended): in the modes `'f'` (normalisation constant 10) and `'d'` (normalisation
constant 1005555), for scores `s ≥ 0`, the colour calls that `displaySquares` makes carry, cell
by cell, the opacity `s / norm` itself; it is never negative, and it is at most 1 exactly when
`s ≤ norm`. -/
theorem displaySquares_opacity (key : Char) (hkey : key = 'f' ∨ key = 'd')
    (squares : List Square) (hs : ∀ sq ∈ squares, 0 ≤ sq.numFeatures) :
    (displaySquares.norm 'f' = 10 ∧ displaySquares.norm 'd' = 1005555) ∧
      (displaySquares key squares).filter (fun call => !call.isRect) =
        squares.map (fun sq => GlCall.color 0 1 0
          (some ((sq.numFeatures : ℚ) / (displaySquares.norm key : ℚ)))) ∧
      ∀ sq ∈ squares, 0 ≤ (sq.numFeatures : ℚ) / (displaySquares.norm key : ℚ) ∧
        ((sq.numFeatures : ℚ) / (displaySquares.norm key : ℚ) ≤ 1 ↔
          sq.numFeatures ≤ displaySquares.norm key) := by
  have hnorm : 0 < displaySquares.norm key := by
    rcases hkey with rfl | rfl <;> decide
  have hnormQ : (0 : ℚ) < (displaySquares.norm key : ℚ) := by exact_mod_cast hnorm
  refine ⟨⟨by decide, by decide⟩, ?_, ?_⟩
  · rw [displaySquares_colors]
    refine List.map_congr_left (fun sq _ => ?_)
    simp only [displaySquares.alpha]
    rw [if_neg (by omega)]
  · intro sq hsq
    have h0 : (0 : ℚ) ≤ (sq.numFeatures : ℚ) := by exact_mod_cast hs sq hsq
    refine ⟨div_nonneg h0 (le_of_lt hnormQ), ?_⟩
    rw [div_le_one hnormQ]
    exact_mod_cast Iff.rfl

/-- Witness for `displaySquares_opacity`: mode `'d'` and one cell of score 783360. -/
theorem displaySquares_opacity_witness :
    (('d' : Char) = 'f' ∨ ('d' : Char) = 'd') ∧
      (∀ sq ∈ [(Square.new 0 0 64 48).setFeatureCount 783360], 0 ≤ sq.numFeatures) ∧
      ((displaySquares.norm 'f' = 10 ∧ displaySquares.norm 'd' = 1005555) ∧
        (displaySquares 'd' [(Square.new 0 0 64 48).setFeatureCount 783360]).filter
            (fun call => !call.isRect) =
          [(Square.new 0 0 64 48).setFeatureCount 783360].map (fun sq => GlCall.color 0 1 0
            (some ((sq.numFeatures : ℚ) / (displaySquares.norm 'd' : ℚ)))) ∧
        ∀ sq ∈ [(Square.new 0 0 64 48).setFeatureCount 783360],
          0 ≤ (sq.numFeatures : ℚ) / (displaySquares.norm 'd' : ℚ) ∧
          ((sq.numFeatures : ℚ) / (displaySquares.norm 'd' : ℚ) ≤ 1 ↔
            sq.numFeatures ≤ displaySquares.norm 'd')) :=
  ⟨by decide, by decide,
    displaySquares_opacity 'd' (by decide) [(Square.new 0 0 64 48).setFeatureCount 783360]
      (by decide)⟩

/-- C10 as stated fails: on the window of 5 x 5 pixels divided by 2 the last column and row of
cells reach beyond the all-zero image of 5 x 5 pixels, and `countPixels` reads outside the
image instead of leaving scores. -/
theorem countPixels_zero_counterexample :
    ∃ squares, DivideScreenReturns 5 5 2 [] squares ∧
      SquareFrameDiff.countPixels (Mat.zeros 5 5) squares = .error Fault.outOfBounds :=
  ⟨grid 2 2 3 3, ⟨4, rfl⟩, rfl⟩

/-- C10 (amended): for every window of `W x H` pixels and every division count `n` with
`1 ≤ n ≤ W`, `n ≤ H` whose cell sizes `W / n` and `H / n` divide `W` and `H`, `countPixels` on the
all-zero image of `H` rows and `W` columns succeeds on the grid built by `divideScreen(n)` and
leaves score 0 in every cell, and `displaySquares` then draws no rectangle, whatever the key;
in general `displaySquares` draws the rectangles of exactly the cells whose score is greater
than 0. -/
theorem countPixels_zero_image (W H n : Int) (hn : 1 ≤ n) (hnW : n ≤ W) (hnH : n ≤ H)
    (hdW : W / n ∣ W) (hdH : H / n ∣ H) :
    (∃ squares result, DivideScreenReturns W H n [] squares ∧
      SquareFrameDiff.countPixels (Mat.zeros H W) squares = .ok result ∧
      result.length = squares.length ∧
      (∀ sq ∈ result, sq.numFeatures = 0) ∧
      ∀ key : Char, (displaySquares key result).filter GlCall.isRect = []) ∧
    ∀ (key : Char) (g : List Square),
      (displaySquares key g).filter GlCall.isRect =
        (g.filter (fun sq => decide (sq.numFeatures > 0))).map
          (fun sq => GlCall.drawSolidRect sq.xPos sq.yPos (sq.xPos + SQUARE_WIDTH)
            (sq.yPos + SQUARE_HEIGHT)) := by
  refine ⟨?_, displaySquares_rects⟩
  obtain ⟨squares, hret, hrun, hprops, _⟩ :=
    countPixels_grid (Mat.zeros H W) n hn hnW hnH hdW hdH
  have hzero : ∀ sq ∈ squares.map
      (fun sq => sq.setFeatureCount (wrap32 ((Mat.zeros H W).cellSum sq))),
      sq.numFeatures = 0 := by
    intro sq hsq
    obtain ⟨sq0, hsq0, rfl⟩ := List.mem_map.1 hsq
    simp only [Square.setFeatureCount]
    rw [cellSum_zeros H W sq0 (hprops sq0 hsq0).1]
    decide
  refine ⟨squares, _, hret, hrun, by simp, hzero, fun key => ?_⟩
  rw [displaySquares_rects, List.map_eq_nil_iff, List.filter_eq_nil_iff]
  intro sq hsq
  rw [hzero sq hsq]
  decide

/-- Witness for `countPixels_zero_image`: the 6 x 3 window divided by 3. -/
theorem countPixels_zero_image_witness :
    ((6 : Int) / 3 ∣ 6 ∧ (3 : Int) / 3 ∣ 3) ∧
    ((∃ squares result, DivideScreenReturns 6 3 3 [] squares ∧
      SquareFrameDiff.countPixels (Mat.zeros 3 6) squares = .ok result ∧
      result.length = squares.length ∧
      (∀ sq ∈ result, sq.numFeatures = 0) ∧
      ∀ key : Char, (displaySquares key result).filter GlCall.isRect = []) ∧
    ∀ (key : Char) (g : List Square),
      (displaySquares key g).filter GlCall.isRect =
        (g.filter (fun sq => decide (sq.numFeatures > 0))).map
          (fun sq => GlCall.drawSolidRect sq.xPos sq.yPos (sq.xPos + SQUARE_WIDTH)
            (sq.yPos + SQUARE_HEIGHT))) :=
  ⟨by decide, countPixels_zero_image 6 3 3 (by decide) (by decide) (by decide) (by decide)
    (by decide)⟩

/-! ## The fixed-cell-size variant -/

/-- C16, evaluation of the code: the fixed-cell-size `divideScreen()` tests `i <= SCREEN_WIDTH`
and `j <= SCREEN_HEIGHT`, so it makes 11 columns and 11 rows: it returns 121 cells, not
`ceil(640/64) * ceil(480/48) = 100`, and 21 of them start on the edge `x = 640` or `y = 480`,
outside the canvas (the last one at `(640, 480)`). -/
theorem fixedSize_divideScreen_cells :
    ∃ squares, FixedSizeVariant.divideScreen 12 [] = .ok squares ∧
      squares.length = 121 ∧
      (squares.filter (fun sq => decide (sq.xPos < 640 ∧ sq.yPos < 480))).length = 100 ∧
      (squares.filter (fun sq => decide (¬ (sq.xPos < 640 ∧ sq.yPos < 480)))).length = 21 ∧
      squares.getLast? = some (Square.new 640 480 64 48) := by
  refine ⟨_, rfl, ?_, ?_, ?_, ?_⟩ <;> decide

/-! ## `divideScreen`: validation, order of the cells, termination -/

/-- C17: for every window with `W, H ≥ 1` and every `n` with `1 ≤ n ≤ min(W, H)`, writing
`w = W / n`, `h = H / n`, `cols = ⌈W / w⌉` and `rows = ⌈H / h⌉`, `divideScreen(n)` on an empty
vector returns `cols * rows` cells in column-major order: the cell at index `k` has
`xPos = (k / rows) * w`, `yPos = (k % rows) * h`, width `w`, height `h` and score 0. -/
theorem divideScreen_column_major (W H n : Int) (hW : 1 ≤ W) (hH : 1 ≤ H) (hn : 1 ≤ n)
    (hnW : n ≤ W) (hnH : n ≤ H) :
    ∃ squares, DivideScreenReturns W H n [] squares ∧
      squares.length =
        ⌈(W : ℚ) / ((W / n : Int) : ℚ)⌉.toNat * ⌈(H : ℚ) / ((H / n : Int) : ℚ)⌉.toNat ∧
      ∀ k : Nat,
        k < ⌈(W : ℚ) / ((W / n : Int) : ℚ)⌉.toNat * ⌈(H : ℚ) / ((H / n : Int) : ℚ)⌉.toNat →
        squares[k]? = some
          { xPos := ((k / ⌈(H : ℚ) / ((H / n : Int) : ℚ)⌉.toNat : Nat) : Int) * (W / n)
            yPos := ((k % ⌈(H : ℚ) / ((H / n : Int) : ℚ)⌉.toNat : Nat) : Int) * (H / n)
            squareWidth := W / n
            squareHeight := H / n
            numFeatures := 0 } := by
  obtain ⟨htW, hposW⟩ := tdiv_pos_iff W n hW hn
  obtain ⟨htH, hposH⟩ := tdiv_pos_iff H n hH hn
  have hw : 0 < W / n := hposW.2 hnW
  have hh : 0 < H / n := hposH.2 hnH
  rw [← loopCount_eq_ceil W (W / n) hW hw, ← loopCount_eq_ceil H (H / n) hH hh]
  refine ⟨_, (divideScreenReturns_iff W H n [] _ (by omega) (by rw [htW]; exact hw)
    (by rw [htH]; exact hh)).2 rfl, ?_, ?_⟩
  · rw [List.nil_append, htW, htH, grid_length]
  · intro k hk
    rw [List.nil_append, htW, htH, grid_getElem?_index _ _ _ _ k hk]
    rfl

/-- Witness for `divideScreen_column_major`: the 5 x 3 window divided by 2 (cells of 2 x 1
pixels in 3 columns and 3 rows). -/
theorem divideScreen_column_major_witness :
    ((1 : Int) ≤ 5 ∧ (1 : Int) ≤ 3 ∧ (1 : Int) ≤ 2 ∧ (2 : Int) ≤ 5 ∧ (2 : Int) ≤ 3) ∧
      ∃ squares, DivideScreenReturns 5 3 2 [] squares ∧
        squares.length =
          ⌈((5 : Int) : ℚ) / (((5 : Int) / 2 : Int) : ℚ)⌉.toNat *
            ⌈((3 : Int) : ℚ) / (((3 : Int) / 2 : Int) : ℚ)⌉.toNat ∧
        ∀ k : Nat,
          k < ⌈((5 : Int) : ℚ) / (((5 : Int) / 2 : Int) : ℚ)⌉.toNat *
              ⌈((3 : Int) : ℚ) / (((3 : Int) / 2 : Int) : ℚ)⌉.toNat →
          squares[k]? = some
            { xPos := ((k / ⌈((3 : Int) : ℚ) / (((3 : Int) / 2 : Int) : ℚ)⌉.toNat : Nat) : Int) *
                ((5 : Int) / 2)
              yPos := ((k % ⌈((3 : Int) : ℚ) / (((3 : Int) / 2 : Int) : ℚ)⌉.toNat : Nat) : Int) *
                ((3 : Int) / 2)
              squareWidth := (5 : Int) / 2
              squareHeight := (3 : Int) / 2
              numFeatures := 0 } :=
  ⟨by decide, divideScreen_column_major 5 3 2 (by decide) (by decide) (by decide) (by decide)
    (by decide)⟩

/-- C19 as stated fails: on a window of 1 x 1 pixel `divideScreen(2)` has the loop steps
`1 / 2 = 0`, the counters never advance and the call does not return, whatever the fuel. -/
theorem divideScreen_terminates_counterexample :
    (Int.tdiv 1 2 = 0) ∧ (∀ fuel, divideScreen fuel 1 1 2 [] = .error Fault.fuelExhausted) ∧
      ¬ ∃ squares, DivideScreenReturns 1 1 2 [] squares := by
  refine ⟨by decide, fun fuel => ?_, ?_⟩
  · exact divideScreen_diverges 1 1 2 (by decide) (by decide) (by decide) (Or.inl (by decide))
      fuel []
  · rintro ⟨squares, fuel, hfuel⟩
    rw [divideScreen_diverges 1 1 2 (by decide) (by decide) (by decide) (Or.inl (by decide))
      fuel []] at hfuel
    cases hfuel

/-- C19 (amended): for every window with `W, H ≥ 1` and every division count `n ≥ 1`,
`divideScreen(n)` terminates if and only if `n ≤ W` and `n ≤ H`, which is exactly when both loop
steps `W / n` and `H / n` are strictly positive; otherwise a step is 0 and the call does not
return, whatever the fuel. -/
theorem divideScreen_terminates (W H n : Int) (hW : 1 ≤ W) (hH : 1 ≤ H) (hn : 1 ≤ n) :
    ((∃ squares, DivideScreenReturns W H n [] squares) ↔ (n ≤ W ∧ n ≤ H)) ∧
      ((0 < Int.tdiv W n ∧ 0 < Int.tdiv H n) ↔ (n ≤ W ∧ n ≤ H)) ∧
      (¬ (n ≤ W ∧ n ≤ H) →
        (Int.tdiv W n = 0 ∨ Int.tdiv H n = 0) ∧
          ∀ fuel, divideScreen fuel W H n [] = .error Fault.fuelExhausted) := by
  obtain ⟨htW, hposW⟩ := tdiv_pos_iff W n hW hn
  obtain ⟨htH, hposH⟩ := tdiv_pos_iff H n hH hn
  have hW0 : 0 ≤ W / n := Int.ediv_nonneg (by omega) (by omega)
  have hH0 : 0 ≤ H / n := Int.ediv_nonneg (by omega) (by omega)
  refine ⟨divideScreenReturns_iff_le W H n hW hH hn [], ?_, ?_⟩
  · rw [htW, htH, hposW, hposH]
  · intro hcon
    refine ⟨by rw [htW, htH]; omega, fun fuel => ?_⟩
    exact divideScreen_diverges W H n (by omega) (by omega) (by omega)
      (by rw [htW, htH]; omega) fuel []

/-- Witness for `divideScreen_terminates`: the 640 x 480 window divided by 10. -/
theorem divideScreen_terminates_witness :
    ((1 : Int) ≤ 640 ∧ (1 : Int) ≤ 480 ∧ (1 : Int) ≤ 10) ∧
      (((∃ squares, DivideScreenReturns 640 480 10 [] squares) ↔
          ((10 : Int) ≤ 640 ∧ (10 : Int) ≤ 480)) ∧
        ((0 < Int.tdiv 640 10 ∧ 0 < Int.tdiv 480 10) ↔ ((10 : Int) ≤ 640 ∧ (10 : Int) ≤ 480)) ∧
        (¬ ((10 : Int) ≤ 640 ∧ (10 : Int) ≤ 480) →
          (Int.tdiv 640 10 = 0 ∨ Int.tdiv 480 10 = 0) ∧
            ∀ fuel, divideScreen fuel 640 480 10 [] = .error Fault.fuelExhausted)) :=
  ⟨by decide, divideScreen_terminates 640 480 10 (by decide) (by decide) (by decide)⟩

/-! ## Scores: sign, bounds of the reads, foreground counts -/

/-- C12 as stated fails: on a window of 4000 x 3000 pixels `divideScreen(1)` builds one cell,
and on the 8-bit image of that size that is 255 everywhere the pixel sum 3060000000 does not
fit a signed 32-bit integer: `countPixels` leaves the negative score -1234967296. -/
theorem scores_nonneg_counterexample :
    DivideScreenReturns 4000 3000 1 [] [Square.new 0 0 4000 3000] ∧
      SquareFrameDiff.countPixels (Mat.const 3000 4000 255) [Square.new 0 0 4000 3000] =
        .ok [(Square.new 0 0 4000 3000).setFeatureCount (-1234967296)] ∧
      ((Square.new 0 0 4000 3000).setFeatureCount (-1234967296)).numFeatures < 0 := by
  refine ⟨⟨2, rfl⟩, ?_, by decide⟩
  rw [SquareFrameDiff.countPixels_wrap _ _ (by
    intro sq hsq
    rw [List.mem_singleton] at hsq
    subst hsq
    simp [Mat.contains, Mat.const, Square.new])]
  simp only [List.map_cons, List.map_nil, Mat.cellSum, Mat.rectSum_const, Square.new]
  rfl

/-- C12 (amended): a constructed square has score 0; every score that `countFeatures` leaves,
on any grid, lies between 0 and the number of points; and for every window of `W x H` pixels
and every `n` with `1 ≤ n ≤ W`, `n ≤ H` whose cell sizes `W / n` and `H / n` divide `W` and `H`, and
every 8-bit image of `H` rows and `W` columns, provided a cell full of 255s fits a signed
32-bit integer (`255 * (W / n) * (H / n) < 2^31`), the grid built by `divideScreen(n)` has scores
0 and every score that `countPixels` leaves on it is at least 0 (and at most that bound). -/
theorem scores_nonneg (W H n : Int) (img : Mat) (hrows : img.rows = H) (hcols : img.cols = W)
    (hn : 1 ≤ n) (hnW : n ≤ W) (hnH : n ≤ H) (hdW : W / n ∣ W) (hdH : H / n ∣ H)
    (hlim : 255 * ((W / n) * (H / n)) < 2147483648) :
    (∀ x y w h : Int, (Square.new x y w h).numFeatures = 0) ∧
      (∀ (points : List Point2f) (g : List Square),
        ∀ sq ∈ SquareFeatures.countFeatures points g,
          0 ≤ sq.numFeatures ∧ sq.numFeatures ≤ (points.length : Int)) ∧
      ∃ squares result, DivideScreenReturns W H n [] squares ∧
        (∀ sq ∈ squares, sq.numFeatures = 0) ∧
        SquareFrameDiff.countPixels img squares = .ok result ∧
        ∀ sq ∈ result, 0 ≤ sq.numFeatures ∧ sq.numFeatures ≤ 255 * ((W / n) * (H / n)) := by
  subst hrows hcols
  refine ⟨fun _ _ _ _ => rfl, SquareFeatures.countFeatures_score_bounds, ?_⟩
  obtain ⟨squares, hret, hrun, hprops, _⟩ := countPixels_grid img n hn hnW hnH hdW hdH
  obtain ⟨htW, hposW⟩ := tdiv_pos_iff img.cols n (by omega) hn
  obtain ⟨htH, hposH⟩ := tdiv_pos_iff img.rows n (by omega) hn
  have hgrid := (divideScreenReturns_iff img.cols img.rows n [] squares (by omega)
    (by rw [htW]; exact hposW.2 hnW) (by rw [htH]; exact hposH.2 hnH)).1 hret
  refine ⟨squares, _, hret, ?_, hrun, ?_⟩
  · intro sq hsq
    rw [hgrid, List.nil_append] at hsq
    exact grid_scores_zero _ _ _ _ sq hsq
  · intro sq hsq
    obtain ⟨sq0, hsq0, rfl⟩ := List.mem_map.1 hsq
    obtain ⟨hin, hw, hh⟩ := hprops sq0 hsq0
    have hb := SquareFrameDiff.cellSum_bounds img 255 img.boundedBy_255 sq0 hin
    rw [hw, hh] at hb
    simp only [Square.setFeatureCount]
    rw [wrap32_of_range _ hb.1 (by omega)]
    exact hb

/-- Witness for `scores_nonneg`: the 4 x 2 window divided by 2 and the image that is 255
everywhere. -/
theorem scores_nonneg_witness :
    ((4 : Int) / 2 ∣ 4 ∧ (2 : Int) / 2 ∣ 2 ∧
        255 * (((4 : Int) / 2) * ((2 : Int) / 2)) < 2147483648) ∧
      ((∀ x y w h : Int, (Square.new x y w h).numFeatures = 0) ∧
        (∀ (points : List Point2f) (g : List Square),
          ∀ sq ∈ SquareFeatures.countFeatures points g,
            0 ≤ sq.numFeatures ∧ sq.numFeatures ≤ (points.length : Int)) ∧
        ∃ squares result, DivideScreenReturns 4 2 2 [] squares ∧
          (∀ sq ∈ squares, sq.numFeatures = 0) ∧
          SquareFrameDiff.countPixels (Mat.const 2 4 255) squares = .ok result ∧
          ∀ sq ∈ result,
            0 ≤ sq.numFeatures ∧ sq.numFeatures ≤ 255 * (((4 : Int) / 2) * ((2 : Int) / 2))) :=
  ⟨by decide, scores_nonneg 4 2 2 (Mat.const 2 4 255) rfl rfl (by decide) (by decide) (by decide)
    (by decide) (by decide) (by decide)⟩

/-- C18 as stated fails: on the window of 7 x 7 pixels divided by 2 the cells are 3 x 3
pixels in three columns and rows; the first read that `countPixels` makes for the cell at
`(0, 6)` beyond the image of 7 x 7 pixels is row 7, column 0, and it takes the out-of-bounds
branch. -/
theorem countPixels_reads_counterexample :
    ∃ squares, DivideScreenReturns 7 7 2 [] squares ∧
      Square.new 0 6 3 3 ∈ squares ∧
      (Mat.zeros 7 7).at? 7 0 = .error Fault.outOfBounds ∧
      SquareFrameDiff.countPixels.body (Mat.zeros 7 7) (Square.new 0 6 3 3) =
        .error Fault.outOfBounds ∧
      SquareFrameDiff.countPixels (Mat.zeros 7 7) squares = .error Fault.outOfBounds :=
  ⟨grid 3 3 3 3, ⟨4, rfl⟩, by decide, rfl, rfl, rfl⟩

/-- C18 (amended): for every window of `W x H` pixels, every `n` with `1 ≤ n ≤ W`, `n ≤ H` and
every image of `H` rows and `W` columns, all the pixel reads that `countPixels` makes on the grid
built by `divideScreen(n)` are in bounds (the call returns scores and never takes the
out-of-bounds branch) if and only if the cell sizes `W / n` and `H / n` divide `W` and `H`;
otherwise the call faults on a read outside the image. -/
theorem countPixels_reads_in_bounds (W H n : Int) (img : Mat) (hrows : img.rows = H)
    (hcols : img.cols = W) (hn : 1 ≤ n) (hnW : n ≤ W) (hnH : n ≤ H) :
    ((∃ squares result, DivideScreenReturns W H n [] squares ∧
        SquareFrameDiff.countPixels img squares = .ok result) ↔ (W / n ∣ W ∧ H / n ∣ H)) ∧
      (¬ (W / n ∣ W ∧ H / n ∣ H) →
        ∃ squares, DivideScreenReturns W H n [] squares ∧
          SquareFrameDiff.countPixels img squares = .error Fault.outOfBounds) := by
  subst hrows hcols
  have hiff := countPixels_grid_ok_iff img n hn hnW hnH
  refine ⟨hiff, fun hnd => ?_⟩
  obtain ⟨squares, hret⟩ := (divideScreenReturns_iff_le img.cols img.rows n (by omega) (by omega)
    hn []).2 ⟨hnW, hnH⟩
  refine ⟨squares, hret, ?_⟩
  cases hrun : SquareFrameDiff.countPixels img squares with
  | error e => rw [SquareFrameDiff.countPixels_error img squares e hrun]
  | ok result => exact absurd (hiff.1 ⟨squares, result, hret, hrun⟩) hnd

/-- Witness for `countPixels_reads_in_bounds`: the 6 x 4 window divided by 2. -/
theorem countPixels_reads_in_bounds_witness :
    ((1 : Int) ≤ 2 ∧ (2 : Int) ≤ 6 ∧ (2 : Int) ≤ 4) ∧
      (((∃ squares result, DivideScreenReturns 6 4 2 [] squares ∧
          SquareFrameDiff.countPixels (Mat.zeros 4 6) squares = .ok result) ↔
          ((6 : Int) / 2 ∣ 6 ∧ (4 : Int) / 2 ∣ 4)) ∧
        (¬ ((6 : Int) / 2 ∣ 6 ∧ (4 : Int) / 2 ∣ 4) →
          ∃ squares, DivideScreenReturns 6 4 2 [] squares ∧
            SquareFrameDiff.countPixels (Mat.zeros 4 6) squares = .error Fault.outOfBounds)) :=
  ⟨by decide, countPixels_reads_in_bounds 6 4 2 (Mat.zeros 4 6) rfl rfl (by decide) (by decide)
    (by decide)⟩

/-- C20 as stated fails: the cell of 8421505 x 1 pixels lies inside the binary image of
that size that is 255 everywhere; 255 times its 8421505 foreground pixels is 2147483775, but
the score that `countPixels` assigns is -2147483521. -/
theorem countPixels_foreground_counterexample :
    (Mat.const 1 8421505 255).isBinary ∧
      (Mat.const 1 8421505 255).contains (Square.new 0 0 8421505 1) ∧
      255 * ((Mat.const 1 8421505 255).foregroundCount (Square.new 0 0 8421505 1) : Int) =
        2147483775 ∧
      SquareFrameDiff.countPixels (Mat.const 1 8421505 255) [Square.new 0 0 8421505 1] =
        .ok [(Square.new 0 0 8421505 1).setFeatureCount (-2147483521)] := by
  refine ⟨fun _ _ _ _ => Or.inr rfl, by decide, ?_,
    SquareFrameDiff.countPixels_overflow_example.2⟩
  rw [Mat.foregroundCount_const]
  decide

/-- C20 (amended): for every binary image and every vector of cells lying inside the image,
the score that `countPixels` assigns to a cell is 255 times the number of foreground pixels
of its rectangle, wrapped to a signed 32-bit integer; it equals 255 times that number
exactly when this product is below `2^31`. -/
theorem countPixels_foreground (img : Mat) (squares : List Square) (hbin : img.isBinary)
    (hin : ∀ sq ∈ squares, img.contains sq) :
    SquareFrameDiff.countPixels img squares =
        .ok (squares.map (fun sq =>
          sq.setFeatureCount (wrap32 (255 * (img.foregroundCount sq : Int))))) ∧
      ∀ sq ∈ squares,
        (wrap32 (255 * (img.foregroundCount sq : Int)) = 255 * (img.foregroundCount sq : Int) ↔
          255 * (img.foregroundCount sq : Int) < 2147483648) := by
  constructor
  · rw [SquareFrameDiff.countPixels_wrap img squares hin]
    refine congrArg Except.ok (List.map_congr_left (fun sq hsq => ?_))
    rw [img.cellSum_eq_foregroundCount sq hbin (hin sq hsq)]
  · intro sq _
    unfold wrap32
    omega

/-- Witness for `countPixels_foreground`: one cell of 2 x 2 pixels in the image of that size
that is 255 everywhere. -/
theorem countPixels_foreground_witness :
    ((Mat.const 2 2 255).isBinary ∧
        ∀ sq ∈ [Square.new 0 0 2 2], (Mat.const 2 2 255).contains sq) ∧
      (SquareFrameDiff.countPixels (Mat.const 2 2 255) [Square.new 0 0 2 2] =
          .ok ([Square.new 0 0 2 2].map (fun sq => sq.setFeatureCount
            (wrap32 (255 * ((Mat.const 2 2 255).foregroundCount sq : Int))))) ∧
        ∀ sq ∈ [Square.new 0 0 2 2],
          (wrap32 (255 * ((Mat.const 2 2 255).foregroundCount sq : Int)) =
              255 * ((Mat.const 2 2 255).foregroundCount sq : Int) ↔
            255 * ((Mat.const 2 2 255).foregroundCount sq : Int) < 2147483648)) :=
  ⟨⟨by decide, by decide⟩,
    countPixels_foreground (Mat.const 2 2 255) [Square.new 0 0 2 2] (by decide) (by decide)⟩

/-! ## The layout is immutable; the application without frames -/

/-- C11: `countFeatures`, `countPixels` and `displaySquares` leave the layout of the grid as it
was: for every grid and every input the vector that `countFeatures` leaves, and the vector
that `countPixels` leaves whenever it returns (it does for every grid inside the image), has
the same number of cells in the same order with the same `xPos`, `yPos`, width and height;
`draw`, which calls `displaySquares`, leaves the whole state, both grids included, as it was. -/
theorem layout_unchanged (points : List Point2f) (img : Mat) (g : List Square)
    (app : OpticalFlowExampleApp) :
    (SquareFeatures.countFeatures points g).map Square.layout = g.map Square.layout ∧
      (∀ result, SquareFrameDiff.countPixels img g = .ok result →
        result.map Square.layout = g.map Square.layout) ∧
      ((∀ sq ∈ g, img.contains sq) →
        ∃ result, SquareFrameDiff.countPixels img g = .ok result ∧
          result.map Square.layout = g.map Square.layout) ∧
      (OpticalFlowExampleApp.draw app).state = .ok app := by
  refine ⟨SquareFeatures.countFeatures_layout points g,
    SquareFrameDiff.countPixels_layout img g, fun hin => ?_, rfl⟩
  have hrun := SquareFrameDiff.countPixels_wrap img g hin
  exact ⟨_, hrun, SquareFrameDiff.countPixels_layout img g _ hrun⟩

/-- C14, evaluation at the failing input: after setup, a camera frame arrives, the space bar
stores it as background frame and `'d'` selects the difference mode; the next update tick
finds the surface and the background frame, so `opticalFlow` goes on, and `bsFrameDifference`
hands the previous frame, which does not exist yet, to `frameDifferencing`: the tick ends in
the fault `emptyFrame` instead of doing nothing. -/
theorem update_passes_absent_previous_frame (cv : Vision) (frame : Mat)
    (squareFeat squareDiff : List Square) (keyPressed : Char) (t1 t2 : Nat) :
    (OpticalFlowExampleApp.run cv (OpticalFlowExampleApp.init squareFeat squareDiff keyPressed)
        [Event.update (some frame) t1, Event.keyDown ' ', Event.keyDown 'd',
          Event.update none t2]).calls =
        [AppCall.frameDifferencing (some (cv.GaussianBlur frame)) (some (cv.GaussianBlur frame)),
          AppCall.frameDifferencing (some (cv.GaussianBlur frame)) none] ∧
      (OpticalFlowExampleApp.run cv (OpticalFlowExampleApp.init squareFeat squareDiff keyPressed)
        [Event.update (some frame) t1, Event.keyDown ' ', Event.keyDown 'd',
          Event.update none t2]).state = .error AppFault.emptyFrame ∧
      ((OpticalFlowExampleApp.run cv (OpticalFlowExampleApp.init squareFeat squareDiff keyPressed)
        [Event.update (some frame) t1, Event.keyDown ' ', Event.keyDown 'd',
          Event.update none t2]).calls.map AppCall.passesEmptyFrame) = [false, true] :=
  ⟨rfl, rfl, rfl⟩

/-- C15: starting from the state after `setup`, for every finite sequence of update ticks
without a camera frame, draw calls, `'f'`/`'d'` key presses and mouse clicks, the run ends
without a fault, no aggregation call (`frameDifferencing`, `countPixels`, `countFeatures`) is
made, nothing that is sent to the renderer draws a rectangle, and both grids are as `setup`
left them, with every score 0. -/
theorem no_frame_no_activity (cv : Vision) (fuel : Nat) (W H : Int) (keyPressed : Char)
    (app0 : OpticalFlowExampleApp)
    (hsetup : OpticalFlowExampleApp.setup fuel W H keyPressed = .ok app0)
    (events : List Event) (hquiet : ∀ e ∈ events, e.quiet = true) :
    ∃ app1, (OpticalFlowExampleApp.run cv app0 events).state = .ok app1 ∧
      (OpticalFlowExampleApp.run cv app0 events).calls = [] ∧
      (∀ d ∈ (OpticalFlowExampleApp.run cv app0 events).drawn, d.isRect = false) ∧
      app1.squareFeat = app0.squareFeat ∧ app1.squareDiff = app0.squareDiff ∧
      (∀ sq ∈ app1.squareFeat, sq.numFeatures = 0) ∧
      (∀ sq ∈ app1.squareDiff, sq.numFeatures = 0) := by
  obtain ⟨app1, hstate, hcalls, hdrawn, hf, hd, hidle⟩ :=
    OpticalFlowExampleApp.run_quiet cv events app0
      (OpticalFlowExampleApp.setup_idle fuel W H keyPressed app0 hsetup) hquiet
  exact ⟨app1, hstate, hcalls, hdrawn, hf, hd, hidle.2.1, hidle.2.2⟩

/-- Witness for `no_frame_no_activity`: setup on the 640 x 480 window, then `'d'`, an update
tick, a draw, `'f'`, a draw and another tick, with OpenCV routines that return their input. -/
theorem no_frame_no_activity_witness :
    (OpticalFlowExampleApp.setup 11 640 480 'x' =
        .ok (OpticalFlowExampleApp.init (grid 64 48 10 10) (grid 64 48 10 10) 'x') ∧
      ∀ e ∈ [Event.keyDown 'd', Event.update none 0, Event.draw, Event.keyDown 'f', Event.draw,
        Event.update none 1], e.quiet = true) ∧
    ∃ app1,
      (OpticalFlowExampleApp.run
          ⟨fun m => m, fun m _ => m, fun m => m, fun _ => [], fun _ _ pts => pts⟩
          (OpticalFlowExampleApp.init (grid 64 48 10 10) (grid 64 48 10 10) 'x')
          [Event.keyDown 'd', Event.update none 0, Event.draw, Event.keyDown 'f', Event.draw,
            Event.update none 1]).state = .ok app1 ∧
      (OpticalFlowExampleApp.run
          ⟨fun m => m, fun m _ => m, fun m => m, fun _ => [], fun _ _ pts => pts⟩
          (OpticalFlowExampleApp.init (grid 64 48 10 10) (grid 64 48 10 10) 'x')
          [Event.keyDown 'd', Event.update none 0, Event.draw, Event.keyDown 'f', Event.draw,
            Event.update none 1]).calls = [] ∧
      (∀ d ∈ (OpticalFlowExampleApp.run
          ⟨fun m => m, fun m _ => m, fun m => m, fun _ => [], fun _ _ pts => pts⟩
          (OpticalFlowExampleApp.init (grid 64 48 10 10) (grid 64 48 10 10) 'x')
          [Event.keyDown 'd', Event.update none 0, Event.draw, Event.keyDown 'f', Event.draw,
            Event.update none 1]).drawn, d.isRect = false) ∧
      app1.squareFeat = grid 64 48 10 10 ∧ app1.squareDiff = grid 64 48 10 10 ∧
      (∀ sq ∈ app1.squareFeat, sq.numFeatures = 0) ∧
      (∀ sq ∈ app1.squareDiff, sq.numFeatures = 0) := by
  have hrun : divideScreen 11 640 480 NUMBER_OF_SQUARES [] = .ok (grid 64 48 10 10) :=
    divideScreen_eq_grid 11 640 480 NUMBER_OF_SQUARES [] (by decide) (by decide) (by decide)
      (by decide) (by decide)
  have hsetup : OpticalFlowExampleApp.setup 11 640 480 'x' =
      .ok (OpticalFlowExampleApp.init (grid 64 48 10 10) (grid 64 48 10 10) 'x') := by
    unfold OpticalFlowExampleApp.setup
    rw [hrun]
  exact ⟨⟨hsetup, by decide⟩,
    no_frame_no_activity ⟨fun m => m, fun m _ => m, fun m => m, fun _ => [], fun _ _ pts => pts⟩
      11 640 480 'x' _ hsetup _ (by decide)⟩

/-! ## The configuration of the application -/

/-- C21: in the configuration of the application (window and 8-bit image of 640 x 480 pixels,
`divideScreen(10)`), `countPixels` returns, every score it leaves is the exact sum of the pixels
of the cell, it is at least 0 and at most `64 * 48 * 255 = 783360`, so the 32-bit accumulator
does not overflow, and the opacity `score / 1005555` that `displaySquares('d')` hands to the
renderer for every cell lies in `[0, 1)` without any clamping. -/
theorem app_configuration_scores (data : Nat → Nat → Fin 256) :
    (64 * 48 * 255 : Int) = 783360 ∧
      ∃ squares result, DivideScreenReturns 640 480 NUMBER_OF_SQUARES [] squares ∧
        squares.length = 100 ∧
        SquareFrameDiff.countPixels { rows := 480, cols := 640, data := data } squares =
          .ok result ∧
        result = squares.map (fun sq => sq.setFeatureCount
          ((Mat.mk 480 640 data).cellSum sq)) ∧
        (∀ sq ∈ result,
          0 ≤ sq.numFeatures ∧ sq.numFeatures ≤ 783360 ∧ sq.numFeatures < 2147483648) ∧
        (displaySquares 'd' result).filter (fun call => !call.isRect) =
          result.map (fun sq => GlCall.color 0 1 0 (some ((sq.numFeatures : ℚ) / 1005555))) ∧
        ∀ sq ∈ result,
          0 ≤ (sq.numFeatures : ℚ) / 1005555 ∧ (sq.numFeatures : ℚ) / 1005555 < 1 := by
  refine ⟨by decide, ?_⟩
  obtain ⟨squares, hret, hrun, hprops, _⟩ :=
    countPixels_grid (Mat.mk 480 640 data) 10 (by decide) (show (10 : Int) ≤ 640 by decide)
      (show (10 : Int) ≤ 480 by decide) (show (640 : Int) / 10 ∣ 640 by decide)
      (show (480 : Int) / 10 ∣ 480 by decide)
  have hbound : ∀ sq ∈ squares,
      0 ≤ (Mat.mk 480 640 data).cellSum sq ∧ (Mat.mk 480 640 data).cellSum sq ≤ 783360 := by
    intro sq hsq
    obtain ⟨hin, hw, hh⟩ := hprops sq hsq
    have hb := SquareFrameDiff.cellSum_bounds (Mat.mk 480 640 data) 255
      (Mat.mk 480 640 data).boundedBy_255 sq hin
    rw [hw, hh] at hb
    have h64 : (Mat.mk 480 640 data).cols / 10 = 64 := show (640 : Int) / 10 = 64 by decide
    have h48 : (Mat.mk 480 640 data).rows / 10 = 48 := show (480 : Int) / 10 = 48 by decide
    rw [h64, h48] at hb
    omega
  have hexact : squares.map (fun sq => sq.setFeatureCount
        (wrap32 ((Mat.mk 480 640 data).cellSum sq))) =
      squares.map (fun sq => sq.setFeatureCount ((Mat.mk 480 640 data).cellSum sq)) := by
    refine List.map_congr_left (fun sq hsq => ?_)
    rw [wrap32_of_range _ (hbound sq hsq).1 (by have := (hbound sq hsq).2; omega)]
  rw [hexact] at hrun
  have hscore : ∀ sq ∈ squares.map (fun sq => sq.setFeatureCount
      ((Mat.mk 480 640 data).cellSum sq)),
      0 ≤ sq.numFeatures ∧ sq.numFeatures ≤ 783360 := by
    intro sq hsq
    obtain ⟨sq0, hsq0, rfl⟩ := List.mem_map.1 hsq
    exact hbound sq0 hsq0
  have hlen : squares.length = 100 := by
    have hgrid : DivideScreenReturns 640 480 10 [] (grid 64 48 10 10) :=
      ⟨11, divideScreen_eq_grid 11 640 480 10 [] (by decide) (by decide) (by decide) (by decide)
        (by decide)⟩
    rw [divideScreenReturns_unique _ _ _ _ _ _ hret hgrid]
    rfl
  refine ⟨squares, _, hret, hlen, hrun, rfl, ?_, ?_, ?_⟩
  · intro sq hsq
    have h := hscore sq hsq
    omega
  · rw [displaySquares_colors]
    refine List.map_congr_left (fun sq _ => ?_)
    simp [displaySquares.alpha, displaySquares.norm]
  · intro sq hsq
    have h := hscore sq hsq
    have h0 : (0 : ℚ) ≤ (sq.numFeatures : ℚ) := by exact_mod_cast h.1
    have h1 : (sq.numFeatures : ℚ) ≤ 783360 := by exact_mod_cast h.2
    have hnorm : (0 : ℚ) < 1005555 := by norm_num
    exact ⟨div_nonneg h0 (le_of_lt hnorm), (div_lt_one hnorm).2 (by linarith)⟩
